import Mathlib

/-!
# CurrencyMonitor: long/short ratio collection, normalisation and storage

A shallow embedding of the Go sources
`models/long_short_ratio.go`, `models/api_log.go`, `services/binance.go`,
`services/okx.go`, `services/types.go`, and of the parts of
`handlers/long_short_ratio.go` and `scheduler/scheduler.go` that read and write the
ratio table, together with the properties of the specification that concern them.

Conventions of the embedding.

* A Go `string` is a Lean `String`, one character standing for one byte
  (`len` is `String.length`, slicing is `List.take` / `List.drop` on the characters).
* A `time.Time` of a reading or of a ratio row is a `Time`: the instant (nanoseconds
  since the Unix epoch) and the location it is presented in. The clock of the world, the
  field `lastRequest` of a client and the creation time of a log entry are kept as
  instants (`Int`); a `time.Duration` is an `Int` number of nanoseconds.
* A `float64` is carried as its IEEE-754 bit pattern; the program only parses,
  stores and returns ratios, it never computes with them in the code embedded here.
* A Go slice is a `Slice`: the nil slice or an allocated sequence. A slice that is only
  ranged over (the symbols, a decoded payload) is a `List`.
* Everything the program cannot decide by itself (the wall clock, the answers of the
  two upstreams, storage faults, `strconv.ParseFloat`, the time text of the SQLite
  driver with the zone rules of the machine) is read from an environment `Env`; a
  theorem quantifies over all environments unless it evaluates the program at a stated
  input.
* Program state that the Go code mutates (the two tables, the clock, the counters of
  the oracles) is threaded explicitly as a `World`; a method of a client with mutable
  fields also returns the client.
* A Go `error` result is an `Option`: `none` is `nil`. A `(*T, error)` result is an
  `Except`.
* The storage engine behind `gorm` is SQLite: a table is a list of rows in insertion
  order, with the primary key `id` handed out by AUTOINCREMENT. A row of the ratio table
  is what the engine holds (`RatioRow`): each time column is the text the driver wrote
  for the `time.Time` (`Env.formatTime`: local wall clock followed by the offset from
  UTC), and conditions and orders on a time column compare that text byte by byte; the
  ratio is a REAL (`storedReal`: negative zero is read back as zero, a NaN is bound as
  NULL and refused). A query scans the rows it returns into `models.LongShortRatio`
  (`scanRow`, `Env.scanTime`). `First` orders by primary key after any explicit order;
  `Order` is a stable sort. Any statement can fail with an error of the engine, as the
  fault oracle of the environment decides.
* `fmt.Printf` and `log` output is not part of the state; what the collection job
  logs at its end is the report that `DataScheduler.collectData` returns. An answer
  `c.JSON(status, gin.H{...})` of a handler is a `Response`.
-/

namespace CurrencyMonitor

/-! ## Time and numbers -/

/-- The constant `time.Second`. -/
def Second : Int := 1000000000

/-- The constant `time.Millisecond`. -/
def Millisecond : Int := 1000000

/-- The zero value of `time.Time` (January 1, year 1, 00:00:00 UTC). -/
def zeroTime : Int := -62135596800000000000

/-- A `*time.Location`: UTC, the local zone of the process, or a zone of fixed offset
(seconds east of UTC) as `time.FixedZone(name, offset)` makes it. -/
inductive Location where
  | UTC : Location
  | Local : Location
  | fixed (name : String) (offset : Int) : Location
deriving DecidableEq, Repr

/-- A `time.Time`: an instant (nanoseconds since the Unix epoch) together with the
location it is presented in. -/
structure Time where
  unixNano : Int
  loc : Location
deriving DecidableEq, Repr

/-- The zero value `time.Time{}`: the zero instant, in UTC. -/
def Time.zero : Time := ⟨zeroTime, .UTC⟩

/-- The value `time.Unix(sec, nsec)`: the instant, in the local zone. -/
def timeUnix (sec nsec : Int) : Time := ⟨sec * 1000000000 + nsec, .Local⟩

/-- A `float64`, carried as its IEEE-754 bit pattern. -/
structure Float64 where
  bits : Nat
deriving DecidableEq, Repr

/-- Whether a `float64` is a NaN: exponent all ones and a non-zero fraction. -/
def Float64.isNaN (v : Float64) : Bool :=
  decide (v.bits / 4503599627370496 % 2048 = 2047 ∧ v.bits % 4503599627370496 ≠ 0)

/-- The comparison `a == b` of two `float64`: false when either is a NaN, true for the
two zeros, otherwise equality of the bit patterns. -/
def Float64.eq (a b : Float64) : Bool :=
  !a.isNaN && !b.isNaN &&
    (decide (a.bits = b.bits) ||
      (decide (a.bits % 9223372036854775808 = 0) && decide (b.bits % 9223372036854775808 = 0)))

/-- The order of two byte strings as `memcmp` followed by the lengths gives it: whether
the first is strictly smaller. -/
def bytesLt : List Char → List Char → Bool
  | [], [] => false
  | [], _ :: _ => true
  | _ :: _, [] => false
  | a :: as, b :: bs =>
    if a.toNat < b.toNat then true
    else if b.toNat < a.toNat then false
    else bytesLt as bs

/-- The comparison `a < b` of two TEXT values in the engine (collation BINARY). -/
def textLt (a b : String) : Bool := bytesLt a.data b.data

/-! ## models/long_short_ratio.go, models/api_log.go: the two row types -/

/-- The struct `models.LongShortRatio`. -/
structure LongShortRatio where
  ID : Nat
  CreatedAt : Time
  UpdatedAt : Time
  Exchange : String
  Symbol : String
  Ratio : Float64
  Timestamp : Time
deriving DecidableEq, Repr

/-- One row of the table `long_short_ratios` as the storage engine holds it. The three
time columns hold the text the driver wrote for the `time.Time` it was given; the
column `ratio` holds a REAL. -/
structure RatioRow where
  id : Nat
  created_at : String
  updated_at : String
  exchange : String
  symbol : String
  ratio : Float64
  timestamp : String
deriving DecidableEq, Repr

/-- The struct `models.APILog`. -/
structure APILog where
  ID : Nat
  CreatedAt : Int
  Exchange : String
  Symbol : String
  Period : String
  Limit : Int
  URL : String
  StatusCode : Int
  ResponseTime : Int
  DataCount : Int
  ErrorMsg : String
  Success : Bool
deriving DecidableEq, Repr

/-- A storage error: `gorm.ErrRecordNotFound`, or any other failure of the engine. -/
inductive DBError where
  | ErrRecordNotFound : DBError
  | other (msg : String) : DBError
deriving DecidableEq, Repr

deriving instance DecidableEq for Except

/-- One table of the database: its rows in insertion order, and the largest id the
engine has handed out so far (the `sqlite_sequence` entry of an AUTOINCREMENT key). -/
structure Table (α : Type) where
  rows : List α
  seq : Nat
deriving DecidableEq, Repr

/-! ## services: payload types and upstream answers -/

/-- The struct `services.BinanceLongShortRatioResponse` (one decoded array entry). -/
structure BinanceLongShortRatioResponse where
  Symbol : String
  LongShortRatio : String
  LongAccount : String
  ShortAccount : String
  Timestamp : Int
deriving DecidableEq, Repr

/-- The struct `services.OKXLongShortRatioResponse` (the decoded envelope). -/
structure OKXLongShortRatioResponse where
  Code : String
  Msg : String
  Data : List (List String)
deriving DecidableEq, Repr

/-- What `io.ReadAll` followed by `json.Unmarshal` into a payload of type `P` gives. -/
inductive Body (P : Type) where
  | readError (msg : String) : Body P
  | malformed (msg : String) : Body P
  | decoded (payload : P) : Body P
deriving DecidableEq, Repr

/-- What one `client.Get(url)` gives: a transport error, or a response with a status
code and a body. -/
inductive HttpResult (P : Type) where
  | transportError (msg : String) : HttpResult P
  | response (status : Int) (body : Body P) : HttpResult P
deriving DecidableEq, Repr

/-- The struct `services.LongShortRatioData`: one normalised reading. -/
structure LongShortRatioData where
  Exchange : String
  Symbol : String
  Ratio : Float64
  Timestamp : Time
deriving DecidableEq, Repr

/-! ## Environment and world -/

/-- Everything outside the program. The oracles are indexed by how many events of
their kind have already happened, so an arbitrary run of the outside world is one
`Env`. -/
structure Env where
  /-- The library function `strconv.ParseFloat(s, 64)`: `none` when it reports an error. -/
  ParseFloat : String → Option Float64
  /-- Nanoseconds that pass before the `k`-th clock event (a reading of the clock or
  the return of a sleep) completes. -/
  lag : Nat → Nat
  /-- The failure, if any, of the `k`-th storage statement. -/
  fault : Nat → Option String
  /-- The answer of the Binance upstream to the `k`-th outbound request. -/
  binanceGet : Nat → String → HttpResult (List BinanceLongShortRatioResponse)
  /-- The answer of the OKX upstream to the `k`-th outbound request. -/
  okxGet : Nat → String → HttpResult OKXLongShortRatioResponse
  /-- Whether `database.GetDB()` is non-nil. -/
  GetDB : Bool
  /-- The text the SQLite driver binds for a `time.Time` argument of a statement:
  `t.Format("2006-01-02 15:04:05.999999999-07:00")`, the wall clock of the instant in the
  location of the value followed by the offset of that location from UTC. It depends on
  the zone rules of the machine when the location is the local one. -/
  formatTime : Time → String
  /-- The `time.Time` the SQLite driver scans from the text of a time column: the text
  parsed with the first of the driver's layouts that fits, the zero time when none
  does. -/
  scanTime : String → Time

/-- The mutable state the program runs in. -/
structure World where
  now : Int
  ticks : Nat
  reqs : Nat
  stmts : Nat
  ratios : Table RatioRow
  logs : Table APILog
deriving DecidableEq, Repr

/-- The call `time.Now()`: the clock advances by the lag of this event and is read. -/
def timeNow (env : Env) (w : World) : Int × World :=
  (w.now + env.lag w.ticks,
   { w with now := w.now + env.lag w.ticks, ticks := w.ticks + 1 })

/-- The call `time.Sleep(d)`: returns at once when `d <= 0`, otherwise no earlier than
`d` later. -/
def timeSleep (env : Env) (d : Int) (w : World) : World :=
  { w with now := w.now + max d 0 + env.lag w.ticks, ticks := w.ticks + 1 }

/-- The start of one storage statement: the fault oracle is consulted and the
statement counter advances. -/
def beginStmt (env : Env) (w : World) : Option String × World :=
  (env.fault w.stmts, { w with stmts := w.stmts + 1 })

/-! ## models/long_short_ratio.go: LongShortRatioRepository -/

/-- The REAL that the engine holds for a bound `float64` that is not a NaN: a value
equal to an integer is kept as that integer and read back as a float, so negative zero
comes back as positive zero; every other value comes back bit for bit. -/
def storedReal (v : Float64) : Float64 :=
  if v.bits = 9223372036854775808 then ⟨0⟩ else v

/-- The `models.LongShortRatio` that a query scans from a stored row. -/
def scanRow (env : Env) (x : RatioRow) : LongShortRatio where
  ID := x.id
  CreatedAt := env.scanTime x.created_at
  UpdatedAt := env.scanTime x.updated_at
  Exchange := x.exchange
  Symbol := x.symbol
  Ratio := x.ratio
  Timestamp := env.scanTime x.timestamp

/-- The clause `ORDER BY id` that `First` adds: ascending primary key. -/
def orderByID (rows : List RatioRow) : List RatioRow :=
  rows.insertionSort (fun a b => a.id ≤ b.id)

/-- The clause `Order("timestamp ASC")`: the engine orders the stored text. -/
def orderByTimestampAsc (rows : List RatioRow) : List RatioRow :=
  rows.insertionSort (fun a b => textLt b.timestamp a.timestamp = false)

/-- The clause `Order("timestamp DESC")` followed by the `ORDER BY id` of `First`: the
engine orders the stored text, and rows of equal text by primary key. -/
def orderByTimestampDescID (rows : List RatioRow) : List RatioRow :=
  rows.insertionSort
    (fun a b => textLt b.timestamp a.timestamp = true ∨
      (a.timestamp = b.timestamp ∧ a.id ≤ b.id))

/-- The query `Where(cond).Order(order).First(&dest)` on the ratio table. -/
def queryFirst (env : Env) (cond : RatioRow → Bool)
    (order : List RatioRow → List RatioRow) (w : World) :
    Except DBError LongShortRatio × World :=
  match (beginStmt env w).1 with
  | some msg => (.error (.other msg), (beginStmt env w).2)
  | none =>
    match (order (w.ratios.rows.filter cond)).head? with
    | none => (.error .ErrRecordNotFound, (beginStmt env w).2)
    | some x => (.ok (scanRow env x), (beginStmt env w).2)

/-- The query `Where(cond).Order(order).Find(&dest)` on the ratio table. -/
def queryFind (env : Env) (cond : RatioRow → Bool)
    (order : List RatioRow → List RatioRow) (w : World) :
    (List LongShortRatio × Option DBError) × World :=
  match (beginStmt env w).1 with
  | some msg => (([], some (.other msg)), (beginStmt env w).2)
  | none =>
    (((order (w.ratios.rows.filter cond)).map (scanRow env), none), (beginStmt env w).2)

/-- The largest id among the rows (0 for no rows). -/
def maxID (rows : List RatioRow) : Nat :=
  rows.foldr (fun x m => max x.id m) 0

/-- The primary key a created row gets: a zero id is replaced by the next
AUTOINCREMENT id (one more than every id in use or handed out before), a non-zero id
is kept. -/
def assignID (t : Table RatioRow) (id : Nat) : Nat :=
  if id = 0 then max t.seq (maxID t.rows) + 1 else id

/-- The time a created row gets in a tracked time column: a zero value is replaced
by the current time. -/
def assignTime (t now : Int) : Int :=
  if t = zeroTime then now else t

/-- The value a created ratio row gets in `CreatedAt` and `UpdatedAt`: the zero value
`time.Time{}` is replaced by `time.Now().Local()`. -/
def assignTimeValue (t : Time) (now : Int) : Time :=
  if t = Time.zero then ⟨now, .Local⟩ else t

/-- The statement `db.Create(ratio)` on the ratio table: a zero id is replaced by a
fresh AUTOINCREMENT id, zero creation and update times by the current time, every time
is written as the text the driver binds for it and the ratio as a REAL. A NaN is bound
as NULL, which the column `ratio` (NOT NULL) refuses; a non-zero id that is already
taken violates the primary key. -/
def dbCreate (env : Env) (ratio : LongShortRatio) (w : World) : Option DBError × World :=
  match (beginStmt env w).1 with
  | some msg => (some (.other msg), (beginStmt env w).2)
  | none =>
    if ratio.Ratio.isNaN = true then
      (some (.other "NOT NULL constraint failed: long_short_ratios.ratio"),
        (timeNow env (beginStmt env w).2).2)
    else if w.ratios.rows.any (fun x => x.id = assignID w.ratios ratio.ID) then
      (some (.other "UNIQUE constraint failed: long_short_ratios.id"),
        (timeNow env (beginStmt env w).2).2)
    else
      let w2 := (timeNow env (beginStmt env w).2).2
      let now := (timeNow env (beginStmt env w).2).1
      let row : RatioRow :=
        { id := assignID w.ratios ratio.ID
          created_at := env.formatTime (assignTimeValue ratio.CreatedAt now)
          updated_at := env.formatTime (assignTimeValue ratio.UpdatedAt now)
          exchange := ratio.Exchange
          symbol := ratio.Symbol
          ratio := storedReal ratio.Ratio
          timestamp := env.formatTime ratio.Timestamp }
      (none, { w2 with ratios :=
        { rows := w.ratios.rows ++ [row], seq := max w.ratios.seq row.id } })

/-- The row that the update statement writes in place of `x`: the row with primary
key `id` gets ratio `v` and the text `t` as its update time, any other row is left as
it is. -/
def updatedRow (id : Nat) (v : Float64) (t : String) (x : RatioRow) : RatioRow :=
  if x.id = id then { x with ratio := v, updated_at := t } else x

/-- The statement `db.Model(&existing).Update("ratio", v)`: every row whose primary key
is that of `existing` gets the new ratio (as a REAL) and a refreshed update time; a zero
primary key leaves the statement without a condition, which the library refuses; a NaN
is bound as NULL, which the column `ratio` refuses when a row is to be updated. -/
def dbUpdateRatio (env : Env) (existing : LongShortRatio) (v : Float64) (w : World) :
    Option DBError × World :=
  match (beginStmt env w).1 with
  | some msg => (some (.other msg), (beginStmt env w).2)
  | none =>
    if existing.ID = 0 then
      (some (.other "WHERE conditions required"), (beginStmt env w).2)
    else if v.isNaN = true ∧ w.ratios.rows.any (fun x => x.id = existing.ID) = true then
      (some (.other "NOT NULL constraint failed: long_short_ratios.ratio"),
        (timeNow env (beginStmt env w).2).2)
    else
      let w2 := (timeNow env (beginStmt env w).2).2
      let now := (timeNow env (beginStmt env w).2).1
      let rows2 := w.ratios.rows.map
        (updatedRow existing.ID (storedReal v) (env.formatTime ⟨now, .Local⟩))
      (none, { w2 with ratios := { w.ratios with rows := rows2 } })

/-- The condition `exchange = ? AND symbol = ? AND timestamp = ?`: the engine compares
the stored text of the column with the text the driver binds for the argument. -/
def keyCond (env : Env) (exchange symbol : String) (ts : Time) (x : RatioRow) : Bool :=
  decide (x.exchange = exchange ∧ x.symbol = symbol ∧ x.timestamp = env.formatTime ts)

/-- The method `LongShortRatioRepository.Create`. -/
def LongShortRatioRepository.Create (env : Env) (ratio : LongShortRatio) (w : World) :
    Option DBError × World :=
  dbCreate env ratio w

/-- The method `LongShortRatioRepository.CreateOrUpdate`. -/
def LongShortRatioRepository.CreateOrUpdate (env : Env) (ratio : LongShortRatio)
    (w : World) : Option DBError × World :=
  match queryFirst env (keyCond env ratio.Exchange ratio.Symbol ratio.Timestamp)
      orderByID w with
  | (.error .ErrRecordNotFound, w1) => dbCreate env ratio w1
  | (.error e, w1) => (some e, w1)
  | (.ok existing, w1) => dbUpdateRatio env existing ratio.Ratio w1

/-- The condition `exchange = ? AND symbol = ? AND timestamp >= ?`: the engine compares
the stored text of the column with the text the driver binds for the argument. -/
def sinceCond (env : Env) (exchange symbol : String) (since : Time) (x : RatioRow) : Bool :=
  decide (x.exchange = exchange ∧ x.symbol = symbol ∧
    textLt x.timestamp (env.formatTime since) = false)

/-- The condition `exchange = ? AND symbol = ?`. -/
def pairCond (exchange symbol : String) (x : RatioRow) : Bool :=
  decide (x.exchange = exchange ∧ x.symbol = symbol)

/-- The method `LongShortRatioRepository.GetRecentData`. -/
def LongShortRatioRepository.GetRecentData (env : Env) (exchange symbol : String)
    (since : Time) (w : World) :
    (List LongShortRatio × Option DBError) × World :=
  queryFind env (sinceCond env exchange symbol since) orderByTimestampAsc w

/-- The method `LongShortRatioRepository.GetLatest`. -/
def LongShortRatioRepository.GetLatest (env : Env) (exchange symbol : String) (w : World) :
    Except DBError LongShortRatio × World :=
  match queryFirst env (pairCond exchange symbol) orderByTimestampDescID w with
  | (.error e, w1) => (.error e, w1)
  | (.ok ratio, w1) => (.ok ratio, w1)

/-- The method `LongShortRatioRepository.DeleteOldData`: the statement
`Where("timestamp < ?", before).Delete(&LongShortRatio{})`; the engine compares the
stored text of the column with the text the driver binds for `before`. -/
def LongShortRatioRepository.DeleteOldData (env : Env) (before : Time) (w : World) :
    Option DBError × World :=
  match (beginStmt env w).1 with
  | some msg => (some (.other msg), (beginStmt env w).2)
  | none =>
    let w1 := (beginStmt env w).2
    (none, { w1 with ratios :=
      { w.ratios with rows :=
          w.ratios.rows.filter (fun x => !textLt x.timestamp (env.formatTime before)) } })

open LongShortRatioRepository

/-! ## Go slices -/

/-- A Go slice value: the nil slice, or an allocated (possibly empty) sequence. -/
inductive Slice (α : Type) where
  | nil : Slice α
  | mk (elems : List α) : Slice α
deriving DecidableEq, Repr

/-- The elements of a slice, in order. -/
def Slice.toList {α : Type} : Slice α → List α
  | .nil => []
  | .mk elems => elems

/-- The builtin `len(s)`. -/
def Slice.len {α : Type} (s : Slice α) : Int := s.toList.length

/-- Whether the slice is the nil slice (`s == nil`). -/
def Slice.isNil {α : Type} : Slice α → Bool
  | .nil => true
  | .mk _ => false

/-- The builtin `append(s, x)`: always an allocated slice. -/
def Slice.append {α : Type} (s : Slice α) (x : α) : Slice α :=
  .mk (s.toList ++ [x])

/-- The builtin `append(s, t...)`: `s` itself when `t` has no element. -/
def Slice.appendAll {α : Type} (s t : Slice α) : Slice α :=
  match t.toList with
  | [] => s
  | x :: xs => .mk (s.toList ++ x :: xs)

/-! ## Library functions of the services -/

/-- The largest `time.Duration`. -/
def maxDuration : Int := 9223372036854775807

/-- The smallest `time.Duration`. -/
def minDuration : Int := -9223372036854775808

/-- The method `t.Sub(u)`: the difference, saturated to the range of a duration. -/
def timeSub (t u : Int) : Int :=
  if t - u > maxDuration then maxDuration
  else if t - u < minDuration then minDuration
  else t - u

/-- The call `time.Since(t)`: a reading of the clock, minus `t`, saturated. -/
def timeSince (env : Env) (t : Int) (w : World) : Int × World :=
  (timeSub (timeNow env w).1 t, (timeNow env w).2)

/-- A result of 64-bit signed arithmetic, wrapped into range. -/
def wrapInt64 (x : Int) : Int :=
  (x + 9223372036854775808) % 18446744073709551616 - 9223372036854775808

/-- The value of a decimal digit. -/
def digitVal (c : Char) : Option Nat :=
  if '0' ≤ c ∧ c ≤ '9' then some (c.toNat - 48) else none

/-- The value of a non-empty run of decimal digits, read left to right. -/
def parseDigits : List Char → Nat → Option Nat
  | [], acc => some acc
  | c :: cs, acc =>
    match digitVal c with
    | none => none
    | some d => parseDigits cs (acc * 10 + d)

/-- The library function `strconv.ParseInt(s, 10, 64)`: an optional sign, then one or
more decimal digits, the value within the signed 64-bit range; `none` when it reports
an error. -/
def ParseInt (s : String) : Option Int :=
  match s.data with
  | [] => none
  | c :: cs =>
    match (if c = '+' ∨ c = '-' then cs else c :: cs) with
    | [] => none
    | d :: ds =>
      match parseDigits (d :: ds) 0 with
      | none => none
      | some un =>
        if c = '-' then
          if un > 9223372036854775808 then none else some (-(un : Int))
        else
          if un ≥ 9223372036854775808 then none else some (un : Int)

/-! ## services: errors and clients -/

/-- The errors the services build with `fmt.Errorf`, one constructor per message. -/
inductive ServiceError where
  /-- The message "请求... API失败: %w". -/
  | requestFailed (exchange cause : String) : ServiceError
  /-- The message "... API返回错误状态码: %d". -/
  | badStatus (exchange : String) (status : Int) : ServiceError
  /-- The message "读取响应失败: %w". -/
  | readFailed (cause : String) : ServiceError
  /-- The message "解析JSON失败: %w". -/
  | jsonFailed (cause : String) : ServiceError
  /-- The message "OKX API返回错误: %s". -/
  | apiError (msg : String) : ServiceError
  /-- The message "没有获取到多空比数据". -/
  | noData : ServiceError
  /-- The message "OKX数据格式错误". -/
  | badFormat : ServiceError
  /-- The message "解析多空比数值失败: %w". -/
  | parseRatioFailed (input : String) : ServiceError
  /-- The message "解析时间戳失败: %w". -/
  | parseTimestampFailed (input : String) : ServiceError
deriving DecidableEq, Repr

/-- The struct `services.BinanceService` (the HTTP client is part of the environment). -/
structure BinanceService where
  baseURL : String
deriving DecidableEq, Repr

/-- The struct `services.OKXService` (the HTTP client is part of the environment). -/
structure OKXService where
  baseURL : String
  lastRequest : Int
deriving DecidableEq, Repr

/-- The constructor `NewBinanceService`. -/
def NewBinanceService : BinanceService := { baseURL := "https://fapi.binance.com" }

/-- The constructor `NewOKXService`: `lastRequest` is the zero time. -/
def NewOKXService : OKXService := { baseURL := "https://www.okx.com", lastRequest := zeroTime }

/-- The largest id among the log rows (0 for no rows). -/
def maxLogID (rows : List APILog) : Nat :=
  rows.foldr (fun x m => max x.ID m) 0

/-- The method `APILogRepository.Create`, the statement `db.Create(log)` on the log
table: a zero id is replaced by a fresh AUTOINCREMENT id, a zero creation time by the
current time; a non-zero id that is already taken violates the primary key. -/
def APILogRepository.Create (env : Env) (log : APILog) (w : World) :
    Option DBError × World :=
  match (beginStmt env w).1 with
  | some msg => (some (.other msg), (beginStmt env w).2)
  | none =>
    let id := if log.ID = 0 then max w.logs.seq (maxLogID w.logs.rows) + 1 else log.ID
    if w.logs.rows.any (fun x => x.ID = id) then
      (some (.other "UNIQUE constraint failed: api_logs.id"),
        (timeNow env (beginStmt env w).2).2)
    else
      let w2 := (timeNow env (beginStmt env w).2).2
      let row := { log with
        ID := id
        CreatedAt := assignTime log.CreatedAt (timeNow env (beginStmt env w).2).1 }
      (none, { w2 with logs := { rows := w.logs.rows ++ [row], seq := max w.logs.seq id } })

/-- The methods `BinanceService.saveLog` and `OKXService.saveLog` (the same code up to
the text they print): insert the entry when the storage handle is present; a failed
insert is printed and otherwise ignored. -/
def saveLog (env : Env) (apiLog : APILog) (w : World) : World :=
  if env.GetDB then (APILogRepository.Create env apiLog w).2 else w

/-- The entry `&models.APILog{Exchange, Symbol, Period, Limit, URL}` the history calls
start from: every other field has its zero value. -/
def newAPILog (exchange symbol period : String) (limit : Int) (url : String) : APILog where
  ID := 0
  CreatedAt := zeroTime
  Exchange := exchange
  Symbol := symbol
  Period := period
  Limit := limit
  URL := url
  StatusCode := 0
  ResponseTime := 0
  DataCount := 0
  ErrorMsg := ""
  Success := false

/-! ## services/binance.go -/

/-- The request URL of both Binance request methods, `fmt.Sprintf` of
`"%s/futures/data/globalLongShortAccountRatio?symbol=%s&period=%s&limit=%d"` with
`b.baseURL, symbol, period, limit`. -/
def BinanceService.url (b : BinanceService) (symbol period : String) (limit : Int) : String :=
  b.baseURL ++ "/futures/data/globalLongShortAccountRatio?symbol=" ++ symbol ++
    "&period=" ++ period ++ "&limit=" ++ toString limit

/-- The reading a Binance client builds from a parsed ratio and a millisecond timestamp. -/
def binanceReading (symbol : String) (v : Float64) (timestamp : Int) : LongShortRatioData where
  Exchange := "binance"
  Symbol := symbol
  Ratio := v
  Timestamp := timeUnix (Int.tdiv timestamp 1000) 0

/-- The method `BinanceService.GetLongShortRatioWithPeriod`. -/
def BinanceService.GetLongShortRatioWithPeriod (env : Env) (b : BinanceService)
    (symbol period : String) (limit : Int) (w : World) :
    Except ServiceError LongShortRatioData × World :=
  let w1 := { w with reqs := w.reqs + 1 }
  match env.binanceGet w.reqs (b.url symbol period limit) with
  | .transportError cause => (.error (.requestFailed "Binance" cause), w1)
  | .response status body =>
    if status ≠ 200 then (.error (.badStatus "Binance" status), w1)
    else
      match body with
      | .readError cause => (.error (.readFailed cause), w1)
      | .malformed cause => (.error (.jsonFailed cause), w1)
      | .decoded [] => (.error .noData, w1)
      | .decoded (ratio :: _) =>
        match env.ParseFloat ratio.LongShortRatio with
        | none => (.error (.parseRatioFailed ratio.LongShortRatio), w1)
        | some ratioValue => (.ok (binanceReading symbol ratioValue ratio.Timestamp), w1)

/-- The method `BinanceService.GetLongShortRatio`. -/
def BinanceService.GetLongShortRatio (env : Env) (b : BinanceService) (symbol : String)
    (w : World) : Except ServiceError LongShortRatioData × World :=
  b.GetLongShortRatioWithPeriod env symbol "5m" 1 w

/-- The loop of `BinanceService.GetLongShortRatioHistory` over the decoded entries: an
entry whose ratio does not parse is skipped (`continue`), any other is appended. -/
def BinanceService.collect (env : Env) (symbol : String) :
    List BinanceLongShortRatioResponse → Slice LongShortRatioData → Slice LongShortRatioData
  | [], results => results
  | ratio :: rest, results =>
    match env.ParseFloat ratio.LongShortRatio with
    | none => BinanceService.collect env symbol rest results
    | some ratioValue =>
      BinanceService.collect env symbol rest
        (results.append (binanceReading symbol ratioValue ratio.Timestamp))

/-- The method `BinanceService.GetLongShortRatioHistory`. -/
def BinanceService.GetLongShortRatioHistory (env : Env) (b : BinanceService)
    (symbol period : String) (limit : Int) (w : World) :
    (Slice LongShortRatioData × Option ServiceError) × World :=
  let startTime := (timeNow env w).1
  let w1 := (timeNow env w).2
  let url := b.url symbol period limit
  let apiLog := newAPILog "binance" symbol period limit url
  let resp := env.binanceGet w1.reqs url
  let w2 := { w1 with reqs := w1.reqs + 1 }
  let responseTime := Int.tdiv (timeSince env startTime w2).1 1000000
  let w3 := (timeSince env startTime w2).2
  let apiLog := { apiLog with ResponseTime := responseTime }
  match resp with
  | .transportError cause =>
    ((.nil, some (.requestFailed "Binance" cause)),
      saveLog env { apiLog with Success := false, ErrorMsg := cause, StatusCode := 0 } w3)
  | .response status body =>
    let apiLog := { apiLog with StatusCode := status }
    if status ≠ 200 then
      ((.nil, some (.badStatus "Binance" status)),
        saveLog env
          { apiLog with Success := false, ErrorMsg := "HTTP状态码: " ++ toString status } w3)
    else
      match body with
      | .readError cause =>
        ((.nil, some (.readFailed cause)),
          saveLog env { apiLog with Success := false, ErrorMsg := cause } w3)
      | .malformed cause =>
        ((.nil, some (.jsonFailed cause)),
          saveLog env { apiLog with Success := false, ErrorMsg := cause } w3)
      | .decoded ratios =>
        let results := BinanceService.collect env symbol ratios .nil
        ((results, none),
          saveLog env { apiLog with Success := true, DataCount := results.len } w3)

/-- The loop of `BinanceService.GetMultipleSymbolsLongShortRatio`: a failed symbol is
printed and skipped; after a successful one the loop sleeps 100 ms. -/
def BinanceService.collectSymbols (env : Env) (b : BinanceService) :
    List String → Slice LongShortRatioData → World → Slice LongShortRatioData × World
  | [], results, w => (results, w)
  | symbol :: rest, results, w =>
    match b.GetLongShortRatio env symbol w with
    | (.error _, w1) => BinanceService.collectSymbols env b rest results w1
    | (.ok data, w1) =>
      BinanceService.collectSymbols env b rest (results.append data)
        (timeSleep env (100 * Millisecond) w1)

/-- The method `BinanceService.GetMultipleSymbolsLongShortRatio`. -/
def BinanceService.GetMultipleSymbolsLongShortRatio (env : Env) (b : BinanceService)
    (symbols : List String) (w : World) :
    (Slice LongShortRatioData × Option ServiceError) × World :=
  (((BinanceService.collectSymbols env b symbols .nil w).1, none),
    (BinanceService.collectSymbols env b symbols .nil w).2)

/-! ## services/okx.go -/

/-- The method `OKXService.convertSymbol`. -/
def OKXService.convertSymbol (symbol : String) : String :=
  if symbol = "BTCUSDT" then "BTC"
  else if symbol = "ETHUSDT" then "ETH"
  else if symbol.length > 4 ∧ String.mk (symbol.data.drop (symbol.length - 4)) = "USDT" then
    String.mk (symbol.data.take (symbol.length - 4))
  else symbol

/-- The throttle both OKX request methods start with:
`if time.Since(o.lastRequest) < time.Second { time.Sleep(time.Second - time.Since(o.lastRequest)) }`
followed by `o.lastRequest = time.Now()`. -/
def OKXService.throttle (env : Env) (o : OKXService) (w : World) : OKXService × World :=
  let w1 := (timeSince env o.lastRequest w).2
  let w3 :=
    if (timeSince env o.lastRequest w).1 < Second then
      timeSleep env (wrapInt64 (Second - (timeSince env o.lastRequest w1).1))
        (timeSince env o.lastRequest w1).2
    else w1
  ({ o with lastRequest := (timeNow env w3).1 }, (timeNow env w3).2)

/-- The reading an OKX client builds from a parsed ratio and a millisecond timestamp. -/
def okxReading (symbol : String) (v : Float64) (timestamp : Int) : LongShortRatioData where
  Exchange := "okx"
  Symbol := symbol
  Ratio := v
  Timestamp := timeUnix (Int.tdiv timestamp 1000) 0

/-- The method `OKXService.GetLongShortRatioWithPeriod`. -/
def OKXService.GetLongShortRatioWithPeriod (env : Env) (o : OKXService)
    (symbol period : String) (limit : Int) (w : World) :
    Except ServiceError LongShortRatioData × OKXService × World :=
  let o1 := (o.throttle env w).1
  let w1 := (o.throttle env w).2
  let url := o.baseURL ++ "/api/v5/rubik/stat/contracts/long-short-account-ratio?ccy=" ++
    OKXService.convertSymbol symbol ++ "&period=" ++ period ++ "&limit=" ++ toString limit
  let w2 := { w1 with reqs := w1.reqs + 1 }
  match env.okxGet w1.reqs url with
  | .transportError cause => (.error (.requestFailed "OKX" cause), o1, w2)
  | .response status body =>
    if status ≠ 200 then (.error (.badStatus "OKX" status), o1, w2)
    else
      match body with
      | .readError cause => (.error (.readFailed cause), o1, w2)
      | .malformed cause => (.error (.jsonFailed cause), o1, w2)
      | .decoded response =>
        if response.Code ≠ "0" then (.error (.apiError response.Msg), o1, w2)
        else
          match response.Data with
          | [] => (.error .noData, o1, w2)
          | data :: _ =>
            match data with
            | ts :: ratio :: _ =>
              match env.ParseFloat ratio with
              | none => (.error (.parseRatioFailed ratio), o1, w2)
              | some ratioValue =>
                match ParseInt ts with
                | none => (.error (.parseTimestampFailed ts), o1, w2)
                | some timestamp => (.ok (okxReading symbol ratioValue timestamp), o1, w2)
            | _ => (.error .badFormat, o1, w2)

/-- The method `OKXService.GetLongShortRatio`. -/
def OKXService.GetLongShortRatio (env : Env) (o : OKXService) (symbol : String) (w : World) :
    Except ServiceError LongShortRatioData × OKXService × World :=
  o.GetLongShortRatioWithPeriod env symbol "5m" 1 w

/-- The loop of `OKXService.GetLongShortRatioHistory` over the decoded pairs, with the
counter `count`: it stops (`break`) once `count >= limit`, skips (`continue`) a pair
with fewer than two fields or with a field that does not parse, and appends any other. -/
def OKXService.collect (env : Env) (symbol : String) (limit : Int) :
    List (List String) → Int → Slice LongShortRatioData → Slice LongShortRatioData
  | [], _, results => results
  | data :: rest, count, results =>
    if count ≥ limit then results
    else
      match data with
      | ts :: ratio :: _ =>
        match env.ParseFloat ratio with
        | none => OKXService.collect env symbol limit rest count results
        | some ratioValue =>
          match ParseInt ts with
          | none => OKXService.collect env symbol limit rest count results
          | some timestamp =>
            OKXService.collect env symbol limit rest (count + 1)
              (results.append (okxReading symbol ratioValue timestamp))
      | _ => OKXService.collect env symbol limit rest count results

/-- The method `OKXService.GetLongShortRatioHistory`. -/
def OKXService.GetLongShortRatioHistory (env : Env) (o : OKXService)
    (symbol period : String) (limit : Int) (w : World) :
    (Slice LongShortRatioData × Option ServiceError) × OKXService × World :=
  let startTime := (timeNow env w).1
  let o1 := (o.throttle env (timeNow env w).2).1
  let w1 := (o.throttle env (timeNow env w).2).2
  let url := o.baseURL ++ "/api/v5/rubik/stat/contracts/long-short-account-ratio?ccy=" ++
    OKXService.convertSymbol symbol ++ "&period=" ++ period
  let apiLog := newAPILog "okx" symbol period limit url
  let resp := env.okxGet w1.reqs url
  let w2 := { w1 with reqs := w1.reqs + 1 }
  let responseTime := Int.tdiv (timeSince env startTime w2).1 1000000
  let w3 := (timeSince env startTime w2).2
  let apiLog := { apiLog with ResponseTime := responseTime }
  match resp with
  | .transportError cause =>
    ((.nil, some (.requestFailed "OKX" cause)), o1,
      saveLog env { apiLog with Success := false, ErrorMsg := cause, StatusCode := 0 } w3)
  | .response status body =>
    let apiLog := { apiLog with StatusCode := status }
    if status ≠ 200 then
      ((.nil, some (.badStatus "OKX" status)), o1,
        saveLog env
          { apiLog with Success := false, ErrorMsg := "HTTP状态码: " ++ toString status } w3)
    else
      match body with
      | .readError cause =>
        ((.nil, some (.readFailed cause)), o1,
          saveLog env { apiLog with Success := false, ErrorMsg := cause } w3)
      | .malformed cause =>
        ((.nil, some (.jsonFailed cause)), o1,
          saveLog env { apiLog with Success := false, ErrorMsg := cause } w3)
      | .decoded response =>
        if response.Code ≠ "0" then
          ((.nil, some (.apiError response.Msg)), o1,
            saveLog env { apiLog with Success := false, ErrorMsg := response.Msg } w3)
        else
          let results := OKXService.collect env symbol limit response.Data 0 .nil
          ((results, none), o1,
            saveLog env { apiLog with Success := true, DataCount := results.len } w3)

/-- The loop of `OKXService.GetMultipleSymbolsLongShortRatio`: a failed symbol is
printed and skipped; after a successful one the loop sleeps 100 ms. -/
def OKXService.collectSymbols (env : Env) :
    List String → OKXService → Slice LongShortRatioData → World →
      Slice LongShortRatioData × OKXService × World
  | [], o, results, w => (results, o, w)
  | symbol :: rest, o, results, w =>
    match o.GetLongShortRatio env symbol w with
    | (.error _, o1, w1) => OKXService.collectSymbols env rest o1 results w1
    | (.ok data, o1, w1) =>
      OKXService.collectSymbols env rest o1 (results.append data)
        (timeSleep env (100 * Millisecond) w1)

/-- The method `OKXService.GetMultipleSymbolsLongShortRatio`. -/
def OKXService.GetMultipleSymbolsLongShortRatio (env : Env) (o : OKXService)
    (symbols : List String) (w : World) :
    (Slice LongShortRatioData × Option ServiceError) × OKXService × World :=
  (((OKXService.collectSymbols env symbols o .nil w).1, none),
    (OKXService.collectSymbols env symbols o .nil w).2)

/-! ## services/types.go -/

/-- The struct `services.DataCollectionService`. -/
structure DataCollectionService where
  binanceService : BinanceService
  okxService : OKXService
  symbols : List String
deriving DecidableEq, Repr

/-- The constructor `NewDataCollectionService`. -/
def NewDataCollectionService (symbols : List String) : DataCollectionService where
  binanceService := NewBinanceService
  okxService := NewOKXService
  symbols := symbols

/-- The method `DataCollectionService.CollectAllData`. The second component is the
service after the call (the OKX client has a new `lastRequest`). -/
def DataCollectionService.CollectAllData (env : Env) (d : DataCollectionService) (w : World) :
    (Slice LongShortRatioData × Option ServiceError) × DataCollectionService × World :=
  let rb := d.binanceService.GetMultipleSymbolsLongShortRatio env d.symbols w
  let allData1 : Slice LongShortRatioData :=
    match rb.1.2 with
    | some _ => .nil
    | none => Slice.appendAll .nil rb.1.1
  let ro := d.okxService.GetMultipleSymbolsLongShortRatio env d.symbols rb.2
  let allData2 : Slice LongShortRatioData :=
    match ro.1.2 with
    | some _ => allData1
    | none => allData1.appendAll ro.1.1
  ((allData2, none), { d with okxService := ro.2.1 }, ro.2.2)

/-! ## The time text of the driver, for the sample environments

The driver writes a `time.Time` with `Format("2006-01-02 15:04:05.999999999-07:00")` and
reads a time column with the first of its layouts that parses the text (date, then
optionally a space or `T` and hour and minute, then optionally seconds with a fraction,
then optionally an offset `±hh:mm`), in UTC when the text has no offset. -/

/-- The decimal digits of `n`, padded with zeros on the left to `width` digits. -/
def padNat (width n : Nat) : String :=
  String.mk (List.replicate (width - (toString n).length) '0') ++ toString n

/-- The function `appendInt` of package `time`: a sign for a negative number, then
the digits padded to `width`. -/
def appendInt (x : Int) (width : Nat) : String :=
  if x < 0 then "-" ++ padNat width x.natAbs else padNat width x.natAbs

/-- Year, month and day of the day that lies `days` days after 1970-01-01, in the
proleptic Gregorian calendar. -/
def civilFromDays (days : Int) : Int × Int × Int :=
  let z := days + 719468
  let era := z / 146097
  let doe := z - era * 146097
  let yoe := (doe - doe / 1460 + doe / 36524 - doe / 146096) / 365
  let doy := doe - (365 * yoe + yoe / 4 - yoe / 100)
  let mp := (5 * doy + 2) / 153
  let d := doy - (153 * mp + 2) / 5 + 1
  let m := if mp < 10 then mp + 3 else mp - 9
  (yoe + era * 400 + (if m ≤ 2 then 1 else 0), m, d)

/-- The number of days from 1970-01-01 to the given day of the proleptic Gregorian
calendar. -/
def daysFromCivil (y m d : Int) : Int :=
  let y1 := if m ≤ 2 then y - 1 else y
  let era := y1 / 400
  let yoe := y1 - era * 400
  let doy := (153 * (if 2 < m then m - 3 else m + 9) + 2) / 5 + d - 1
  let doe := yoe * 365 + yoe / 4 - yoe / 100 + doy
  era * 146097 + doe - 719468

/-- The number of days of a month. -/
def daysIn (m y : Nat) : Nat :=
  if m = 2 then (if y % 4 = 0 ∧ (y % 100 ≠ 0 ∨ y % 400 = 0) then 29 else 28)
  else if m = 4 ∨ m = 6 ∨ m = 9 ∨ m = 11 then 30
  else 31

/-- The fraction of a second under the layout `.999999999`: nothing for zero
nanoseconds, otherwise a period and the nine digits without their trailing zeros. -/
def formatNano (nsec : Nat) : String :=
  match ((padNat 9 nsec).data.reverse.dropWhile (fun c => c = '0')).reverse with
  | [] => ""
  | ds => "." ++ String.mk ds

/-- The offset under the layout `-07:00`: the sign, then hours and minutes of the
offset in whole minutes. -/
def formatZone (offset : Int) : String :=
  (if Int.tdiv offset 60 < 0 then "-" else "+") ++
    padNat 2 ((Int.tdiv offset 60).natAbs / 60) ++ ":" ++
    padNat 2 ((Int.tdiv offset 60).natAbs % 60)

/-- The offset from UTC, in seconds, of the location of a time at its instant;
`localOffset` gives the offset of the local zone at a Unix second. -/
def offsetOf (localOffset : Int → Int) (t : Time) : Int :=
  match t.loc with
  | .UTC => 0
  | .Local => localOffset (t.unixNano / 1000000000)
  | .fixed _ offset => offset

/-- The text `t.Format("2006-01-02 15:04:05.999999999-07:00")` on a machine whose local
zone has the offsets `localOffset`. -/
def referenceFormat (localOffset : Int → Int) (t : Time) : String :=
  let wall := t.unixNano / 1000000000 + offsetOf localOffset t
  let ymd := civilFromDays (wall / 86400)
  let rem := wall % 86400
  appendInt ymd.1 4 ++ "-" ++ appendInt ymd.2.1 2 ++ "-" ++ appendInt ymd.2.2 2 ++ " " ++
    appendInt (rem / 3600) 2 ++ ":" ++ appendInt (rem % 3600 / 60) 2 ++ ":" ++
    appendInt (rem % 60) 2 ++ formatNano (t.unixNano % 1000000000).toNat ++
    formatZone (offsetOf localOffset t)

/-- The function `getnum` of package `time`: a number of two digits, or of one digit
when the field is not of fixed width. -/
def getnum (fixed : Bool) : List Char → Option (Nat × List Char)
  | [] => none
  | c :: rest =>
    match digitVal c with
    | none => none
    | some d =>
      match rest with
      | [] => if fixed then none else some (d, [])
      | c2 :: rest2 =>
        match digitVal c2 with
        | some d2 => some (d * 10 + d2, rest2)
        | none => if fixed then none else some (d, rest)

/-- A year of exactly four digits. -/
def scanYear : List Char → Option (Nat × List Char)
  | a :: b :: c :: d :: rest =>
    match digitVal a, digitVal b, digitVal c, digitVal d with
    | some a, some b, some c, some d => some (a * 1000 + b * 100 + c * 10 + d, rest)
    | _, _, _, _ => none
  | _ => none

/-- The date `2006-01-02`: the days since 1970-01-01 and the rest of the text. -/
def scanDate (cs : List Char) : Option (Int × List Char) :=
  match scanYear cs with
  | some (y, '-' :: r1) =>
    match getnum true r1 with
    | some (m, '-' :: r2) =>
      match getnum true r2 with
      | some (d, r3) =>
        if 1 ≤ m ∧ m ≤ 12 ∧ 1 ≤ d ∧ d ≤ daysIn m y then
          some (daysFromCivil y m d, r3)
        else none
      | none => none
    | _ => none
  | _ => none

/-- The nanoseconds that a run of digits after the decimal mark stands for: the first
nine digits, scaled to nine. -/
def scanNano (digits : List Char) : Nat :=
  ((parseDigits (digits.take 9) 0).getD 0) * 10 ^ (9 - (digits.take 9).length)

/-- The optional fraction of a second: a period or comma followed by at least one
digit. -/
def scanFraction (cs : List Char) : Nat × List Char :=
  match cs with
  | m :: d :: rest =>
    if (m = '.' ∨ m = ',') ∧ (digitVal d).isSome then
      (scanNano ((d :: rest).takeWhile (fun c => (digitVal c).isSome)),
        (d :: rest).dropWhile (fun c => (digitVal c).isSome))
    else (0, cs)
  | _ => (0, cs)

/-- The offset `-07:00` at the end of the text, in seconds east of UTC. -/
def scanZone (cs : List Char) : Option Int :=
  match cs with
  | [sign, h1, h2, ':', m1, m2] =>
    match getnum true [h1, h2], getnum true [m1, m2] with
    | some (hr, _), some (mm, _) =>
      if hr > 24 ∨ mm > 60 then none
      else if sign = '+' then some (((hr * 60 + mm) * 60 : Nat) : Int)
      else if sign = '-' then some (-(((hr * 60 + mm) * 60 : Nat) : Int))
      else none
    | _, _ => none
  | _ => none

/-- The time of day and the offset that follow the date: seconds since midnight,
nanoseconds, and the offset when the text has one. -/
def scanClock (cs : List Char) : Option (Nat × Nat × Option Int) :=
  match getnum false cs with
  | some (h, ':' :: r1) =>
    match getnum true r1 with
    | some (mi, []) => if h < 24 ∧ mi < 60 then some (h * 3600 + mi * 60, 0, none) else none
    | some (mi, ':' :: r2) =>
      match getnum true r2 with
      | some (s, r3) =>
        if h < 24 ∧ mi < 60 ∧ s < 60 then
          match (scanFraction r3).2 with
          | [] => some (h * 3600 + mi * 60 + s, (scanFraction r3).1, none)
          | z :: zs =>
            match scanZone (z :: zs) with
            | some off => some (h * 3600 + mi * 60 + s, (scanFraction r3).1, some off)
            | none => none
        else none
      | none => none
    | _ => none
  | _ => none

/-- The text of a time column parsed with the layouts of the driver, `none` when no
layout fits. A time without offset, or with offset zero, is in UTC, any other in the
nameless zone of that fixed offset. -/
def scanLayouts (cs : List Char) : Option Time :=
  match scanDate cs with
  | some (days, []) => some ⟨days * 86400 * 1000000000, .UTC⟩
  | some (days, sep :: rest) =>
    if sep = ' ' ∨ sep = 'T' then
      match scanClock rest with
      | some (secs, nsec, none) => some ⟨(days * 86400 + secs) * 1000000000 + nsec, .UTC⟩
      | some (secs, nsec, some off) =>
        some ⟨(days * 86400 + secs - off) * 1000000000 + nsec,
          if off = 0 then .UTC else .fixed "" off⟩
      | none => none
    else none
  | none => none

/-- The `time.Time` the driver scans from the text of a time column: a final `Z` is
dropped, the text is parsed with the layouts, and the zero time stands for a text that
no layout fits. -/
def referenceScan (s : String) : Time :=
  (scanLayouts (if s.data.getLast? = some 'Z' then s.data.dropLast else s.data)).getD
    Time.zero

/-- The offset of the zone America/New_York from UTC at a Unix second of the year 2023:
daylight time (-04:00) from 2023-03-12 07:00 UTC until 2023-11-05 06:00 UTC, standard
time (-05:00) before and after. -/
def newYorkOffset (sec : Int) : Int :=
  if 1678604400 ≤ sec ∧ sec < 1699164000 then -14400 else -18000

/-! ## Sample environment and inputs -/

/-- An environment without faults: the clock advances one millisecond per event, both
upstreams refuse the connection, three decimal literals are known to the parser
(with their IEEE-754 double bit patterns), and the local zone of the machine is UTC. -/
def quietEnv : Env where
  ParseFloat := fun s =>
    if s = "1.234" then some ⟨0x3FF3BE76C8B43958⟩
    else if s = "1.10" then some ⟨0x3FF199999999999A⟩
    else if s = "2.5" then some ⟨0x4004000000000000⟩
    else none
  lag := fun _ => 1000000
  fault := fun _ => none
  binanceGet := fun _ _ => .transportError "connection refused"
  okxGet := fun _ _ => .transportError "connection refused"
  GetDB := true
  formatTime := referenceFormat (fun _ => 0)
  scanTime := referenceScan

/-- A world with empty tables, at 2023-11-14 22:13:20 UTC. -/
def emptyWorld : World where
  now := 1700000000000000000
  ticks := 0
  reqs := 0
  stmts := 0
  ratios := { rows := [], seq := 0 }
  logs := { rows := [], seq := 0 }

/-- A reading as the collection job hands it to the repository. -/
def sampleReading (v : Float64) : LongShortRatio where
  ID := 0
  CreatedAt := Time.zero
  UpdatedAt := Time.zero
  Exchange := "binance"
  Symbol := "BTCUSDT"
  Ratio := v
  Timestamp := timeUnix 1700000000 0

/-! ## Predicates used in the statements -/

/-- Two readings bear the same natural key: the same exchange, the same symbol and the
same observed-at instant. -/
def sameKey (a b : LongShortRatio) : Prop :=
  a.Exchange = b.Exchange ∧ a.Symbol = b.Symbol ∧
    a.Timestamp.unixNano = b.Timestamp.unixNano

instance (a b : LongShortRatio) : Decidable (sameKey a b) := by
  unfold sameKey; infer_instance

/-- No two readings of the list share the natural key. -/
def NaturalKeyUnique (rows : List LongShortRatio) : Prop :=
  rows.Pairwise (fun a b => ¬ sameKey a b)

/-- No two stored rows of the list share the primary key. -/
def PrimaryKeyUnique (rows : List RatioRow) : Prop :=
  rows.Pairwise (fun a b => a.id ≠ b.id)

instance (rows : List LongShortRatio) : Decidable (NaturalKeyUnique rows) := by
  unfold NaturalKeyUnique sameKey; infer_instance

instance (rows : List RatioRow) : Decidable (PrimaryKeyUnique rows) := by
  unfold PrimaryKeyUnique; infer_instance

/-- A world holding three rows, written on a machine whose local zone is UTC: two
Binance BTCUSDT rows out of time order (observed at the Unix seconds 1700000600 and
1700000000) and one OKX row (observed at 1700000300). -/
def threeRowWorld : World where
  now := 1700000900000000000
  ticks := 0
  reqs := 0
  stmts := 0
  ratios :=
    { rows :=
        [⟨1, "2023-11-14 22:23:25+00:00", "2023-11-14 22:23:25+00:00", "binance",
            "BTCUSDT", ⟨0x4004000000000000⟩, "2023-11-14 22:23:20+00:00"⟩,
         ⟨2, "2023-11-14 22:23:26+00:00", "2023-11-14 22:23:26+00:00", "binance",
            "BTCUSDT", ⟨0x3FF3BE76C8B43958⟩, "2023-11-14 22:13:20+00:00"⟩,
         ⟨3, "2023-11-14 22:23:27+00:00", "2023-11-14 22:23:27+00:00", "okx",
            "BTCUSDT", ⟨0x3FF199999999999A⟩, "2023-11-14 22:18:20+00:00"⟩]
      seq := 3 }
  logs := { rows := [], seq := 0 }

/-- A machine like that of `quietEnv` whose local zone is America/New_York. -/
def newYorkEnv : Env :=
  { quietEnv with formatTime := referenceFormat newYorkOffset }

/-- A reading as the collection job hands it to the repository, for Binance BTCUSDT
with the given ratio, observed at the given Unix second. -/
def readingAt (sec : Int) (v : Float64) : LongShortRatio where
  ID := 0
  CreatedAt := Time.zero
  UpdatedAt := Time.zero
  Exchange := "binance"
  Symbol := "BTCUSDT"
  Ratio := v
  Timestamp := timeUnix sec 0

/-- A reading like `readingAt` whose observed-at is presented in UTC:
`time.Unix(sec, 0).UTC()`. -/
def utcReadingAt (sec : Int) (v : Float64) : LongShortRatio where
  ID := 0
  CreatedAt := Time.zero
  UpdatedAt := Time.zero
  Exchange := "binance"
  Symbol := "BTCUSDT"
  Ratio := v
  Timestamp := ⟨sec * 1000000000, .UTC⟩

/-- The store of a machine in the zone America/New_York after it has saved two readings
on 2023-11-05, the night on which the clocks go back: the first observed at 01:30
daylight time (Unix second 1699162200), the second forty minutes later, at 01:10
standard time (Unix second 1699164600). -/
def fallBackWorld : World :=
  (CreateOrUpdate newYorkEnv (readingAt 1699164600 ⟨0x3FF199999999999A⟩)
    (CreateOrUpdate newYorkEnv (readingAt 1699162200 ⟨0x4004000000000000⟩)
      emptyWorld).2).2

/-- The batch operation in the words of the specification, for Binance: fetch the
single-reading value of each symbol in turn (pausing 100 ms after a success) and list the
outcome of every fetch, failed or not. -/
def BinanceService.fetchEach (env : Env) (b : BinanceService) :
    List String → World → List (Except ServiceError LongShortRatioData) × World
  | [], w => ([], w)
  | symbol :: rest, w =>
    let r := b.GetLongShortRatio env symbol w
    let w1 :=
      match r.1 with
      | .ok _ => timeSleep env (100 * Millisecond) r.2
      | .error _ => r.2
    ((r.1 :: (BinanceService.fetchEach env b rest w1).1),
      (BinanceService.fetchEach env b rest w1).2)

/-- The batch operation in the words of the specification, for OKX: fetch the
single-reading value of each symbol in turn (pausing 100 ms after a success) and list the
outcome of every fetch, failed or not. -/
def OKXService.fetchEach (env : Env) :
    List String → OKXService → World →
      List (Except ServiceError LongShortRatioData) × OKXService × World
  | [], o, w => ([], o, w)
  | symbol :: rest, o, w =>
    let r := o.GetLongShortRatio env symbol w
    let w1 :=
      match r.1 with
      | .ok _ => timeSleep env (100 * Millisecond) r.2.2
      | .error _ => r.2.2
    ((r.1 :: (OKXService.fetchEach env rest r.2.1 w1).1),
      (OKXService.fetchEach env rest r.2.1 w1).2)

/-- The readings among a list of fetch outcomes, in order. -/
def successes (outcomes : List (Except ServiceError LongShortRatioData)) :
    List LongShortRatioData :=
  outcomes.filterMap (fun r => match r with | .ok d => some d | .error _ => none)

/-- The Binance payload of the specification, decoded:
`[{"symbol":"BTCUSDT","longShortRatio":"2.5","timestamp":1700000000000}]`. -/
def sampleBinancePayload : List BinanceLongShortRatioResponse :=
  [⟨"BTCUSDT", "2.5", "", "", 1700000000000⟩]

/-- The OKX payload of the specification, decoded:
`{"code":"0","data":[["1700000000000","1.234"],["1699999700000","1.10"]]}`. -/
def sampleOKXPayload : OKXLongShortRatioResponse :=
  ⟨"0", "", [["1700000000000", "1.234"], ["1699999700000", "1.10"]]⟩

/-- An environment in which both upstreams answer every request with status 200 and
the payload of the specification. -/
def liveEnv : Env :=
  { quietEnv with
    binanceGet := fun _ _ => .response 200 (.decoded sampleBinancePayload)
    okxGet := fun _ _ => .response 200 (.decoded sampleOKXPayload) }

/-- The reading a data pair of an OKX payload stands for, when the pair is well formed:
at least two fields, the second parsing as a float and the first as an integer. -/
def okxNormalise (env : Env) (symbol : String) (data : List String) :
    Option LongShortRatioData :=
  match data with
  | ts :: ratio :: _ =>
    match env.ParseFloat ratio with
    | none => none
    | some v =>
      match ParseInt ts with
      | none => none
      | some t => some (okxReading symbol v t)
  | _ => none

/-- The reading an entry of a Binance payload stands for, when its ratio string parses. -/
def binanceNormalise (env : Env) (symbol : String) (entry : BinanceLongShortRatioResponse) :
    Option LongShortRatioData :=
  match env.ParseFloat entry.LongShortRatio with
  | none => none
  | some v => some (binanceReading symbol v entry.Timestamp)

/-- An environment in which Binance answers with status 200 and one entry whose ratio
string is not a number. -/
def garbledEnv : Env :=
  { quietEnv with
    binanceGet := fun _ _ =>
      .response 200 (.decoded [⟨"BTCUSDT", "abc", "", "", 1700000000000⟩]) }

/-- The URL of the OKX history request: it carries the period and no limit. -/
def OKXService.historyURL (o : OKXService) (symbol period : String) : String :=
  o.baseURL ++ "/api/v5/rubik/stat/contracts/long-short-account-ratio?ccy=" ++
    OKXService.convertSymbol symbol ++ "&period=" ++ period

/-- Whether an upstream answer makes the Binance history call fail: a transport
failure, a status other than 200, a body that cannot be read, or malformed JSON. -/
def binanceFails : HttpResult (List BinanceLongShortRatioResponse) → Bool
  | .transportError _ => true
  | .response status body =>
    if status ≠ 200 then true
    else
      match body with
      | .decoded _ => false
      | _ => true

/-- Whether an upstream answer makes the OKX history call fail: a transport failure, a
status other than 200, a body that cannot be read, malformed JSON, or an envelope whose
code is not "0". -/
def okxFails : HttpResult OKXLongShortRatioResponse → Bool
  | .transportError _ => true
  | .response status body =>
    if status ≠ 200 then true
    else
      match body with
      | .decoded response => decide (response.Code ≠ "0")
      | _ => true

/-- The status code of an upstream answer as the log records it: 0 when the call never
completed. -/
def loggedStatus {P : Type} : HttpResult P → Int
  | .transportError _ => 0
  | .response status _ => status

/-- An environment in which Binance answers with status 200 and an empty array, and
OKX with status 200 and an envelope of code "0" without data. -/
def emptyPayloadEnv : Env :=
  { quietEnv with
    binanceGet := fun _ _ => .response 200 (.decoded [])
    okxGet := fun _ _ => .response 200 (.decoded ⟨"0", "", []⟩) }

/-- One request of the OKX client: through `GetLongShortRatioWithPeriod` or through
`GetLongShortRatioHistory`. -/
inductive OKXCall where
  | single (symbol period : String) (limit : Int) : OKXCall
  | history (symbol period : String) (limit : Int) : OKXCall

deriving DecidableEq, Repr

/-- The client and the world after the client has issued the request. -/
def OKXService.issue (env : Env) (o : OKXService) (c : OKXCall) (w : World) :
    OKXService × World :=
  match c with
  | .single symbol period limit => (o.GetLongShortRatioWithPeriod env symbol period limit w).2
  | .history symbol period limit => (o.GetLongShortRatioHistory env symbol period limit w).2

/-- The world in which the throttle of a request starts: the history call reads the
clock once (its start time) before. -/
def OKXCall.throttleStart (env : Env) (c : OKXCall) (w : World) : World :=
  match c with
  | .single _ _ _ => w
  | .history _ _ _ => (timeNow env w).2

/-- The object a handler builds for one reading:
`gin.H{"exchange", "symbol", "ratio", "timestamp"}`. -/
structure ReadingJSON where
  exchange : String
  symbol : String
  ratio : Float64
  timestamp : Time

deriving DecidableEq, Repr

/-- The `data` member of the answers of `GetCurrentRatios`: one reading, or the list of
the latest readings. -/
inductive CurrentData where
  | one (reading : ReadingJSON) : CurrentData
  | many (readings : Slice ReadingJSON) : CurrentData

deriving DecidableEq, Repr

/-- The `data` member of the answer of `RefreshData`:
`gin.H{"collected", "saved"}`. -/
structure RefreshCounts where
  collected : Int
  saved : Int

deriving DecidableEq, Repr

/-- One answer `c.JSON(status, gin.H{"success", "message", "data"})`: the status code
and the members of the envelope, an absent member being `none`. -/
structure Response (D : Type) where
  status : Int
  success : Bool
  message : Option String
  data : Option D

deriving DecidableEq, Repr

/-- The struct `handlers.LongShortRatioHandler` (its repository works on the ratio
table of the world). -/
structure LongShortRatioHandler where
  dataCollectionSvc : DataCollectionService

deriving DecidableEq, Repr

/-- The constructor `NewLongShortRatioHandler`. -/
def NewLongShortRatioHandler : LongShortRatioHandler where
  dataCollectionSvc := NewDataCollectionService ["BTCUSDT", "ETHUSDT"]

/-- The object built from a stored row. -/
def readingJSON (ratio : LongShortRatio) : ReadingJSON where
  exchange := ratio.Exchange
  symbol := ratio.Symbol
  ratio := ratio.Ratio
  timestamp := ratio.Timestamp

/-- The inner loop of `GetCurrentRatios` without filter, over the symbols for one
exchange: a failed lookup is skipped. -/
def LongShortRatioHandler.latestOfSymbols (env : Env) (ex : String) :
    List String → Slice ReadingJSON → World → Slice ReadingJSON × World
  | [], results, w => (results, w)
  | sym :: rest, results, w =>
    match GetLatest env ex sym w with
    | (.error _, w1) => LongShortRatioHandler.latestOfSymbols env ex rest results w1
    | (.ok ratio, w1) =>
      LongShortRatioHandler.latestOfSymbols env ex rest
        (results.append (readingJSON ratio)) w1

/-- The outer loop of `GetCurrentRatios` without filter, over the exchanges. -/
def LongShortRatioHandler.latestOfExchanges (env : Env) (symbols : List String) :
    List String → Slice ReadingJSON → World → Slice ReadingJSON × World
  | [], results, w => (results, w)
  | ex :: rest, results, w =>
    LongShortRatioHandler.latestOfExchanges env symbols rest
      (LongShortRatioHandler.latestOfSymbols env ex symbols results w).1
      (LongShortRatioHandler.latestOfSymbols env ex symbols results w).2

/-- The handler `LongShortRatioHandler.GetCurrentRatios`; `exchange` and `symbol` are
the query values `c.Query("exchange")` and `c.Query("symbol")`, empty when absent. -/
def LongShortRatioHandler.GetCurrentRatios (env : Env) (_h : LongShortRatioHandler)
    (exchange symbol : String) (w : World) : Response CurrentData × World :=
  if exchange = "" ∨ symbol = "" then
    let r := LongShortRatioHandler.latestOfExchanges env ["BTCUSDT", "ETHUSDT"]
      ["binance", "okx"] .nil w
    ({ status := 200, success := true, message := none, data := some (.many r.1) }, r.2)
  else
    match GetLatest env exchange symbol w with
    | (.error _, w1) =>
      ({ status := 404, success := false, message := some "未找到数据", data := none }, w1)
    | (.ok ratio, w1) =>
      ({ status := 200, success := true, message := none,
         data := some (.one (readingJSON ratio)) }, w1)

/-- An environment whose storage engine fails every statement. -/
def lockedEnv : Env :=
  { quietEnv with fault := fun _ => some "database is locked" }

/-- The row `&models.LongShortRatio{Exchange, Symbol, Ratio, Timestamp}` the collection
job and `RefreshData` build from a reading: every other field has its zero value. -/
def ratioOfReading (item : LongShortRatioData) : LongShortRatio where
  ID := 0
  CreatedAt := Time.zero
  UpdatedAt := Time.zero
  Exchange := item.Exchange
  Symbol := item.Symbol
  Ratio := item.Ratio
  Timestamp := item.Timestamp

/-- The struct `scheduler.DataScheduler` (the cron table is not part of the model; the
repository works on the ratio table of the world). -/
structure DataScheduler where
  dataCollectionSvc : DataCollectionService
  symbols : List String

deriving DecidableEq, Repr

/-- The constructor `NewDataScheduler`. -/
def NewDataScheduler : DataScheduler where
  dataCollectionSvc := NewDataCollectionService ["BTCUSDT", "ETHUSDT"]
  symbols := ["BTCUSDT", "ETHUSDT"]

/-- What one run of `collectData` writes to the log: that collecting failed, that
nothing was collected, or the summary "collected n, saved m" with the number of save
errors. -/
inductive CollectReport where
  | failed (err : ServiceError) : CollectReport
  | nothing : CollectReport
  | summary (collected saved : Int) (errors : Int) : CollectReport

deriving DecidableEq, Repr

/-- The save loop of `DataScheduler.collectData`, with the counter `savedCount` and
the slice `errors` (one entry, exchange, symbol and error, per failed upsert). -/
def DataScheduler.saveLoop (env : Env) :
    List LongShortRatioData → Int → Slice (String × String × DBError) → World →
      Int × Slice (String × String × DBError) × World
  | [], savedCount, errors, w => (savedCount, errors, w)
  | item :: rest, savedCount, errors, w =>
    match CreateOrUpdate env (ratioOfReading item) w with
    | (some err, w1) =>
      DataScheduler.saveLoop env rest savedCount
        (errors.append (item.Exchange, item.Symbol, err)) w1
    | (none, w1) => DataScheduler.saveLoop env rest (savedCount + 1) errors w1

/-- The method `DataScheduler.collectData`; the first component is what the run logs. -/
def DataScheduler.collectData (env : Env) (s : DataScheduler) (w : World) :
    CollectReport × DataScheduler × World :=
  let r := s.dataCollectionSvc.CollectAllData env w
  let s1 := { s with dataCollectionSvc := r.2.1 }
  match r.1.2 with
  | some err => (.failed err, s1, r.2.2)
  | none =>
    if r.1.1.len = 0 then (.nothing, s1, r.2.2)
    else
      let saved := DataScheduler.saveLoop env r.1.1.toList 0 .nil r.2.2
      (.summary r.1.1.len saved.1 saved.2.1.len, s1, saved.2.2)

/-- The method `DataScheduler.CollectDataNow`. -/
def DataScheduler.CollectDataNow (env : Env) (s : DataScheduler) (w : World) :
    Option ServiceError × DataScheduler × World :=
  (none, (s.collectData env w).2)

/-- The save loop of `LongShortRatioHandler.RefreshData`, with the counter
`savedCount`. -/
def LongShortRatioHandler.saveLoop (env : Env) :
    List LongShortRatioData → Int → World → Int × World
  | [], savedCount, w => (savedCount, w)
  | item :: rest, savedCount, w =>
    match CreateOrUpdate env (ratioOfReading item) w with
    | (some _, w1) => LongShortRatioHandler.saveLoop env rest savedCount w1
    | (none, w1) => LongShortRatioHandler.saveLoop env rest (savedCount + 1) w1

/-- The handler `LongShortRatioHandler.RefreshData`. -/
def LongShortRatioHandler.RefreshData (env : Env) (h : LongShortRatioHandler) (w : World) :
    Response RefreshCounts × LongShortRatioHandler × World :=
  let r := h.dataCollectionSvc.CollectAllData env w
  let h1 := { h with dataCollectionSvc := r.2.1 }
  match r.1.2 with
  | some _ =>
    ({ status := 500, success := false, message := some "收集数据失败", data := none },
      h1, r.2.2)
  | none =>
    let saved := LongShortRatioHandler.saveLoop env r.1.1.toList 0 r.2.2
    ({ status := 200, success := true, message := some "数据刷新完成",
       data := some { collected := r.1.1.len, saved := saved.1 } }, h1, saved.2)

/-- The row that stands for a reading in the words of the specification: a new row (no
primary key, no record times yet) with the exchange, the symbol, the ratio and the
observed-at of the reading. -/
def rowOfReading (item : LongShortRatioData) : LongShortRatio :=
  ⟨0, Time.zero, Time.zero, item.Exchange, item.Symbol, item.Ratio, item.Timestamp⟩

/-- The persistence step in the words of the specification: upsert every reading in
order and list the outcome of every upsert, failed or not. -/
def upsertEach (env : Env) :
    List LongShortRatioData → World → List (Option DBError) × World
  | [], w => ([], w)
  | item :: rest, w =>
    (((CreateOrUpdate env (rowOfReading item) w).1 ::
        (upsertEach env rest (CreateOrUpdate env (rowOfReading item) w).2).1),
      (upsertEach env rest (CreateOrUpdate env (rowOfReading item) w).2).2)

/-- The number of upserts that succeeded. -/
def countSaved (outcomes : List (Option DBError)) : Nat :=
  outcomes.countP (fun r => r.isNone)

/-! # Theorems -/

/-! ## Storage lemmas -/

theorem head?_insertionSort_none {α : Type} (r : α → α → Prop) [DecidableRel r] (l : List α)
    (h : (l.insertionSort r).head? = none) : l = [] := by
  have hp := List.perm_insertionSort r l
  have h0 : l.insertionSort r = [] := by
    cases hs : l.insertionSort r with
    | nil => rfl
    | cons a t => rw [hs] at h; simp at h
  rw [h0] at hp
  exact List.Perm.nil_eq hp |>.symm

theorem head?_insertionSort_mem {α : Type} (r : α → α → Prop) [DecidableRel r] (l : List α)
    (x : α) (h : (l.insertionSort r).head? = some x) : x ∈ l := by
  have hp := List.perm_insertionSort r l
  exact hp.subset (List.mem_of_mem_head? h)

theorem maxID_ge (rows : List RatioRow) (x : RatioRow) (hx : x ∈ rows) :
    x.id ≤ maxID rows := by
  induction rows with
  | nil => simp at hx
  | cons a t ih =>
    simp only [maxID, List.foldr_cons]
    rcases List.mem_cons.mp hx with h | h
    · subst h; exact le_max_left _ _
    · exact le_trans (ih h) (le_max_right _ _)

theorem assignID_ne_zero (t : Table RatioRow) (id : Nat) : assignID t id ≠ 0 := by
  unfold assignID
  split <;> omega

theorem storedReal_eq (v : Float64) (h : v.isNaN = false) :
    Float64.eq (storedReal v) v = true := by
  unfold storedReal
  split
  · rename_i hz
    simp [Float64.eq, Float64.isNaN, hz]
  · simp [Float64.eq, h]

theorem createOrUpdate_ok_cases (env : Env) (r : LongShortRatio) (w w' : World)
    (h : CreateOrUpdate env r w = (none, w')) :
    r.Ratio.isNaN = false ∧
    ((w.ratios.rows.filter (keyCond env r.Exchange r.Symbol r.Timestamp) = [] ∧
      ∃ row, w'.ratios.rows = w.ratios.rows ++ [row] ∧ row.exchange = r.Exchange ∧
        row.symbol = r.Symbol ∧ row.timestamp = env.formatTime r.Timestamp ∧
        row.ratio = storedReal r.Ratio ∧
        row.id ≠ 0 ∧ ∀ x ∈ w.ratios.rows, x.id ≠ row.id) ∨
    (∃ e t, (orderByID (w.ratios.rows.filter
          (keyCond env r.Exchange r.Symbol r.Timestamp))).head? = some e ∧ e.id ≠ 0 ∧
        w'.ratios.rows = w.ratios.rows.map (updatedRow e.id (storedReal r.Ratio) t))) := by
  unfold CreateOrUpdate queryFirst at h
  simp only [beginStmt] at h
  cases hf : env.fault w.stmts with
  | some msg => simp [hf] at h
  | none =>
    simp only [hf] at h
    cases hh : (orderByID (w.ratios.rows.filter
        (keyCond env r.Exchange r.Symbol r.Timestamp))).head? with
    | none =>
      simp only [hh] at h
      unfold dbCreate at h
      simp only [beginStmt] at h
      cases hf2 : env.fault (w.stmts + 1) with
      | some msg => simp [hf2] at h
      | none =>
        simp only [hf2] at h
        split at h
        · simp at h
        · rename_i hnan
          split at h
          · simp at h
          · rename_i hany
            simp only [Prod.mk.injEq, true_and] at h
            subst h
            refine ⟨by simpa using hnan, Or.inl ⟨head?_insertionSort_none _ _ hh, ?_⟩⟩
            refine ⟨_, rfl, rfl, rfl, rfl, rfl, assignID_ne_zero _ _, ?_⟩
            intro x hx hid
            apply hany
            simp only [List.any_eq_true, decide_eq_true_eq]
            exact ⟨x, hx, hid⟩
    | some e =>
      simp only [hh] at h
      have hmem := head?_insertionSort_mem _ _ e hh
      rw [List.mem_filter] at hmem
      unfold dbUpdateRatio at h
      simp only [beginStmt] at h
      cases hf2 : env.fault (w.stmts + 1) with
      | some msg => simp [hf2] at h
      | none =>
        simp only [hf2] at h
        split at h
        · simp at h
        · rename_i hid
          split at h
          · simp at h
          · rename_i hnan
            simp only [Prod.mk.injEq, true_and] at h
            subst h
            have hany : (w.ratios.rows.any fun x => decide (x.id = (scanRow env e).ID)) = true := by
              simp only [List.any_eq_true, decide_eq_true_eq]
              exact ⟨e, hmem.1, rfl⟩
            refine ⟨?_, Or.inr ⟨e, _, rfl, hid, rfl⟩⟩
            cases hn : r.Ratio.isNaN with
            | false => rfl
            | true => exact absurd ⟨hn, hany⟩ hnan

theorem createOrUpdate_ok_row (env : Env) (r : LongShortRatio) (w w' : World)
    (h : CreateOrUpdate env r w = (none, w')) :
    ∃ row ∈ w'.ratios.rows, row.exchange = r.Exchange ∧ row.symbol = r.Symbol ∧
      row.timestamp = env.formatTime r.Timestamp ∧ row.ratio = storedReal r.Ratio := by
  rcases (createOrUpdate_ok_cases env r w w' h).2 with
    ⟨_, row, hrows, h1, h2, h3, h4, _⟩ | ⟨e, t, hhead, _, hrows⟩
  · exact ⟨row, by rw [hrows]; simp, h1, h2, h3, h4⟩
  · have hmem := head?_insertionSort_mem _ _ e hhead
    rw [List.mem_filter] at hmem
    have hk := hmem.2
    simp only [keyCond, decide_eq_true_eq] at hk
    refine ⟨updatedRow e.id (storedReal r.Ratio) t e, ?_, ?_⟩
    · rw [hrows]
      exact List.mem_map_of_mem _ hmem.1
    · unfold updatedRow
      rw [if_pos rfl]
      exact ⟨hk.1, hk.2.1, hk.2.2, rfl⟩

theorem map_updatedRow_of_ne (id : Nat) (v : Float64) (t : String) (l : List RatioRow)
    (h : ∀ x ∈ l, x.id ≠ id) : l.map (updatedRow id v t) = l := by
  induction l with
  | nil => rfl
  | cons a s ih =>
    rw [List.map_cons, ih (fun x hx => h x (List.mem_cons_of_mem _ hx))]
    have : updatedRow id v t a = a := by
      unfold updatedRow
      rw [if_neg (h a (List.mem_cons_self _ _))]
    rw [this]

/-- C1, at a failing input. On a machine in the zone America/New_York, starting from the
empty store, a reading observed at the Unix second 1700000000 and presented in UTC is
upserted, and then a reading of the same exchange and symbol observed at the same
instant, presented in the local zone, with another ratio. Both upserts succeed, and
the store then holds two rows for the one natural key: the lookup compares the text
`2023-11-14 22:13:20+00:00` of the first row with the text `2023-11-14 17:13:20-05:00`
bound for the second reading. The same happens when the first reading was saved by a
machine whose local zone is UTC. -/
theorem createOrUpdate_same_instant_two_rows :
    sameKey (utcReadingAt 1700000000 ⟨0x4004000000000000⟩)
      (readingAt 1700000000 ⟨0x3FF199999999999A⟩) ∧
    NaturalKeyUnique (emptyWorld.ratios.rows.map (scanRow newYorkEnv)) ∧
    (CreateOrUpdate newYorkEnv (utcReadingAt 1700000000 ⟨0x4004000000000000⟩)
      emptyWorld).1 = none ∧
    (CreateOrUpdate newYorkEnv (readingAt 1700000000 ⟨0x3FF199999999999A⟩)
      (CreateOrUpdate newYorkEnv (utcReadingAt 1700000000 ⟨0x4004000000000000⟩)
        emptyWorld).2).1 = none ∧
    (CreateOrUpdate newYorkEnv (readingAt 1700000000 ⟨0x3FF199999999999A⟩)
      (CreateOrUpdate newYorkEnv (utcReadingAt 1700000000 ⟨0x4004000000000000⟩)
        emptyWorld).2).2.ratios.rows =
      [⟨1, "2023-11-14 17:13:20.001-05:00", "2023-11-14 17:13:20.001-05:00", "binance",
          "BTCUSDT", ⟨0x4004000000000000⟩, "2023-11-14 22:13:20+00:00"⟩,
       ⟨2, "2023-11-14 17:13:20.002-05:00", "2023-11-14 17:13:20.002-05:00", "binance",
          "BTCUSDT", ⟨0x3FF199999999999A⟩, "2023-11-14 17:13:20-05:00"⟩] ∧
    ¬ NaturalKeyUnique
      ((CreateOrUpdate newYorkEnv (readingAt 1700000000 ⟨0x3FF199999999999A⟩)
        (CreateOrUpdate newYorkEnv (utcReadingAt 1700000000 ⟨0x4004000000000000⟩)
          emptyWorld).2).2.ratios.rows.map (scanRow newYorkEnv)) ∧
    (CreateOrUpdate newYorkEnv (readingAt 1700000000 ⟨0x3FF199999999999A⟩)
      (CreateOrUpdate quietEnv (readingAt 1700000000 ⟨0x4004000000000000⟩)
        emptyWorld).2).2.ratios.rows =
      [⟨1, "2023-11-14 22:13:20.001+00:00", "2023-11-14 22:13:20.001+00:00", "binance",
          "BTCUSDT", ⟨0x4004000000000000⟩, "2023-11-14 22:13:20+00:00"⟩,
       ⟨2, "2023-11-14 17:13:20.002-05:00", "2023-11-14 17:13:20.002-05:00", "binance",
          "BTCUSDT", ⟨0x3FF199999999999A⟩, "2023-11-14 17:13:20-05:00"⟩] := by
  refine ⟨by decide, by decide, by decide, by decide, by decide, by decide, by decide⟩

/-- C2, at a failing input. The store of `fallBackWorld` holds two Binance BTCUSDT rows,
observed at the Unix seconds 1699162200 (row 1) and 1699164600 (row 2). `GetLatest`
returns row 1, whose observed-at is forty minutes before that of row 2: the engine
orders the stored text, and `2023-11-05 01:30:00-04:00` is greater than
`2023-11-05 01:10:00-05:00`. -/
theorem getLatest_returns_earlier_row :
    fallBackWorld.ratios.rows =
      [⟨1, "2023-11-14 17:13:20.001-05:00", "2023-11-14 17:13:20.001-05:00", "binance",
          "BTCUSDT", ⟨0x4004000000000000⟩, "2023-11-05 01:30:00-04:00"⟩,
       ⟨2, "2023-11-14 17:13:20.002-05:00", "2023-11-14 17:13:20.002-05:00", "binance",
          "BTCUSDT", ⟨0x3FF199999999999A⟩, "2023-11-05 01:10:00-05:00"⟩] ∧
    (fallBackWorld.ratios.rows.map
        (fun x => ((scanRow newYorkEnv x).ID, (scanRow newYorkEnv x).Timestamp.unixNano))) =
      [(1, 1699162200000000000), (2, 1699164600000000000)] ∧
    (GetLatest newYorkEnv "binance" "BTCUSDT" fallBackWorld).1 =
      .ok ⟨1, ⟨1700000000001000000, .fixed "" (-18000)⟩,
        ⟨1700000000001000000, .fixed "" (-18000)⟩, "binance", "BTCUSDT",
        ⟨0x4004000000000000⟩, ⟨1699162200000000000, .fixed "" (-14400)⟩⟩ := by
  refine ⟨by decide, by decide, by decide⟩

/-- C3, at a failing input. On the store of `fallBackWorld` (rows observed at the Unix
seconds 1699162200 and 1699164600), `GetRecentData` since the Unix second 1699163400
returns no row, though row 2 was observed after it; since 1699165200 it returns row 1,
which was observed before it; and since 1699160400 it returns both rows with the later
one first. The engine compares and orders the stored text. -/
theorem getRecentData_misses_and_misorders :
    (GetRecentData newYorkEnv "binance" "BTCUSDT" (timeUnix 1699163400 0)
      fallBackWorld).1 = ([], none) ∧
    (fallBackWorld.ratios.rows.map
        (fun x => ((scanRow newYorkEnv x).ID, (scanRow newYorkEnv x).Timestamp.unixNano))) =
      [(1, 1699162200000000000), (2, 1699164600000000000)] ∧
    (timeUnix 1699163400 0).unixNano ≤ 1699164600000000000 ∧
    ((GetRecentData newYorkEnv "binance" "BTCUSDT" (timeUnix 1699165200 0)
      fallBackWorld).1.1.map (fun x => (x.ID, x.Timestamp.unixNano))) =
      [(1, 1699162200000000000)] ∧
    (1699162200000000000 : Int) < (timeUnix 1699165200 0).unixNano ∧
    ((GetRecentData newYorkEnv "binance" "BTCUSDT" (timeUnix 1699160400 0)
      fallBackWorld).1.1.map (fun x => (x.ID, x.Timestamp.unixNano))) =
      [(2, 1699164600000000000), (1, 1699162200000000000)] := by
  refine ⟨by decide, by decide, by decide, by decide, by decide, by decide⟩

/-- C4, at a failing input. On the store of `fallBackWorld` (rows observed at the Unix
seconds 1699162200 and 1699164600), `DeleteOldData` with the cutoff at the Unix second
1699163400 removes both rows, though row 2 was observed after the cutoff; with the
cutoff at 1699165200 it keeps row 1 and removes row 2, though row 1 was observed before
the cutoff and before row 2. The engine compares the stored text with the text
bound for the cutoff. -/
theorem deleteOldData_removes_newer_row :
    (fallBackWorld.ratios.rows.map
        (fun x => ((scanRow newYorkEnv x).ID, (scanRow newYorkEnv x).Timestamp.unixNano))) =
      [(1, 1699162200000000000), (2, 1699164600000000000)] ∧
    (DeleteOldData newYorkEnv (timeUnix 1699163400 0) fallBackWorld).1 = none ∧
    (DeleteOldData newYorkEnv (timeUnix 1699163400 0) fallBackWorld).2.ratios.rows = [] ∧
    (timeUnix 1699163400 0).unixNano ≤ 1699164600000000000 ∧
    (DeleteOldData newYorkEnv (timeUnix 1699165200 0) fallBackWorld).1 = none ∧
    ((DeleteOldData newYorkEnv (timeUnix 1699165200 0) fallBackWorld).2.ratios.rows.map
        (fun x => ((scanRow newYorkEnv x).ID, (scanRow newYorkEnv x).Timestamp.unixNano))) =
      [(1, 1699162200000000000)] ∧
    (1699162200000000000 : Int) < (timeUnix 1699165200 0).unixNano := by
  refine ⟨by decide, by decide, by decide, by decide, by decide, by decide, by decide⟩

theorem Slice.toList_append {α : Type} (s : Slice α) (x : α) :
    (s.append x).toList = s.toList ++ [x] := rfl

theorem Slice.toList_appendAll {α : Type} (s t : Slice α) :
    (s.appendAll t).toList = s.toList ++ t.toList := by
  unfold Slice.appendAll
  cases h : t.toList with
  | nil => simp
  | cons x xs => rfl

theorem successes_length_le (outcomes : List (Except ServiceError LongShortRatioData)) :
    (successes outcomes).length ≤ outcomes.length :=
  List.length_filterMap_le _ _

theorem binance_collectSymbols_eq (env : Env) (b : BinanceService) (symbols : List String) :
    ∀ (results : Slice LongShortRatioData) (w : World),
      (BinanceService.collectSymbols env b symbols results w).1.toList =
        results.toList ++ successes (BinanceService.fetchEach env b symbols w).1 ∧
      (BinanceService.collectSymbols env b symbols results w).2 =
        (BinanceService.fetchEach env b symbols w).2 := by
  induction symbols with
  | nil =>
    intro results w
    simp [BinanceService.collectSymbols, BinanceService.fetchEach, successes]
  | cons s rest ih =>
    intro results w
    unfold BinanceService.collectSymbols BinanceService.fetchEach
    rcases h : b.GetLongShortRatio env s w with ⟨r, w1⟩
    cases r with
    | error e =>
      simp only []
      obtain ⟨h1, h2⟩ := ih results w1
      rw [h1, h2]
      simp [successes]
    | ok d =>
      simp only []
      obtain ⟨h1, h2⟩ := ih (results.append d) (timeSleep env (100 * Millisecond) w1)
      rw [h1, h2]
      simp [successes, Slice.toList_append]

theorem okx_collectSymbols_eq (env : Env) (symbols : List String) :
    ∀ (o : OKXService) (results : Slice LongShortRatioData) (w : World),
      (OKXService.collectSymbols env symbols o results w).1.toList =
        results.toList ++ successes (OKXService.fetchEach env symbols o w).1 ∧
      (OKXService.collectSymbols env symbols o results w).2 =
        (OKXService.fetchEach env symbols o w).2 := by
  induction symbols with
  | nil => intro o results w; simp [OKXService.collectSymbols, OKXService.fetchEach, successes]
  | cons s rest ih =>
    intro o results w
    unfold OKXService.collectSymbols OKXService.fetchEach
    rcases h : o.GetLongShortRatio env s w with ⟨r, o1, w1⟩
    cases r with
    | error e =>
      simp only []
      obtain ⟨h1, h2⟩ := ih o1 results w1
      rw [h1, h2]
      simp [successes]
    | ok d =>
      simp only []
      obtain ⟨h1, h2⟩ := ih o1 (results.append d) (timeSleep env (100 * Millisecond) w1)
      rw [h1, h2]
      simp [successes, Slice.toList_append]

theorem binance_fetchEach_length (env : Env) (b : BinanceService) (symbols : List String) :
    ∀ w, (BinanceService.fetchEach env b symbols w).1.length = symbols.length := by
  induction symbols with
  | nil => intro w; rfl
  | cons s rest ih => intro w; simp [BinanceService.fetchEach, ih]

theorem okx_fetchEach_length (env : Env) (symbols : List String) :
    ∀ o w, (OKXService.fetchEach env symbols o w).1.length = symbols.length := by
  induction symbols with
  | nil => intro o w; rfl
  | cons s rest ih => intro o w; simp [OKXService.fetchEach, ih]

theorem binance_getMultiple_eq (env : Env) (b : BinanceService) (symbols : List String)
    (w : World) :
    (b.GetMultipleSymbolsLongShortRatio env symbols w).1.1.toList =
        successes (BinanceService.fetchEach env b symbols w).1 ∧
      (b.GetMultipleSymbolsLongShortRatio env symbols w).2 =
        (BinanceService.fetchEach env b symbols w).2 := by
  have hb := binance_collectSymbols_eq env b symbols .nil w
  unfold BinanceService.GetMultipleSymbolsLongShortRatio
  exact ⟨by simpa [Slice.toList] using hb.1, hb.2⟩

theorem okx_getMultiple_eq (env : Env) (o : OKXService) (symbols : List String)
    (w : World) :
    (o.GetMultipleSymbolsLongShortRatio env symbols w).1.1.toList =
        successes (OKXService.fetchEach env symbols o w).1 ∧
      (o.GetMultipleSymbolsLongShortRatio env symbols w).2 =
        (OKXService.fetchEach env symbols o w).2 := by
  have ho := okx_collectSymbols_eq env symbols o .nil w
  unfold OKXService.GetMultipleSymbolsLongShortRatio
  exact ⟨by simpa [Slice.toList] using ho.1, ho.2⟩

/-- C7. For both clients and every list of symbols, `GetMultipleSymbolsLongShortRatio`
returns no error and returns exactly the readings of the per-symbol fetches that
succeeded, in the order of the symbols; every symbol is fetched once, also after a
failure, so the number of readings equals the number of successful fetches and is at
most the number of symbols. -/
theorem getMultipleSymbols_returns_successes (env : Env) (b : BinanceService)
    (o : OKXService) (symbols : List String) (w : World) :
    ((b.GetMultipleSymbolsLongShortRatio env symbols w).1.2 = none ∧
      (b.GetMultipleSymbolsLongShortRatio env symbols w).1.1.toList =
        successes (BinanceService.fetchEach env b symbols w).1 ∧
      (b.GetMultipleSymbolsLongShortRatio env symbols w).2 =
        (BinanceService.fetchEach env b symbols w).2 ∧
      (BinanceService.fetchEach env b symbols w).1.length = symbols.length ∧
      (b.GetMultipleSymbolsLongShortRatio env symbols w).1.1.toList.length ≤
        symbols.length) ∧
    ((o.GetMultipleSymbolsLongShortRatio env symbols w).1.2 = none ∧
      (o.GetMultipleSymbolsLongShortRatio env symbols w).1.1.toList =
        successes (OKXService.fetchEach env symbols o w).1 ∧
      (o.GetMultipleSymbolsLongShortRatio env symbols w).2 =
        (OKXService.fetchEach env symbols o w).2 ∧
      (OKXService.fetchEach env symbols o w).1.length = symbols.length ∧
      (o.GetMultipleSymbolsLongShortRatio env symbols w).1.1.toList.length ≤
        symbols.length) := by
  have hbl := binance_fetchEach_length env b symbols w
  have hol := okx_fetchEach_length env symbols o w
  obtain ⟨hb1, hb2⟩ := binance_getMultiple_eq env b symbols w
  obtain ⟨ho1, ho2⟩ := okx_getMultiple_eq env o symbols w
  refine ⟨⟨rfl, hb1, hb2, hbl, ?_⟩, ⟨rfl, ho1, ho2, hol, ?_⟩⟩
  · rw [hb1, ← hbl]
    exact successes_length_le _
  · rw [ho1, ← hol]
    exact successes_length_le _

/-- C6. For every symbol list and every behaviour of the two upstreams,
`CollectAllData` returns no error and its result is the readings of the Binance batch
followed by the readings of the OKX batch (which runs in the world the Binance batch
left), that is the successful Binance fetches in symbol order followed by the
successful OKX fetches in symbol order; so when one exchange yields no reading the
result has exactly the readings of the other one. -/
theorem collectAllData_exchange_major (env : Env) (d : DataCollectionService) (w : World) :
    (d.CollectAllData env w).1.2 = none ∧
    (d.CollectAllData env w).1.1.toList =
      (d.binanceService.GetMultipleSymbolsLongShortRatio env d.symbols w).1.1.toList ++
      (d.okxService.GetMultipleSymbolsLongShortRatio env d.symbols
        (d.binanceService.GetMultipleSymbolsLongShortRatio env d.symbols w).2).1.1.toList ∧
    ((d.binanceService.GetMultipleSymbolsLongShortRatio env d.symbols w).1.1.toList = [] →
      (d.CollectAllData env w).1.1.toList.length =
        (d.okxService.GetMultipleSymbolsLongShortRatio env d.symbols
          (d.binanceService.GetMultipleSymbolsLongShortRatio env d.symbols
            w).2).1.1.toList.length) ∧
    ((d.okxService.GetMultipleSymbolsLongShortRatio env d.symbols
        (d.binanceService.GetMultipleSymbolsLongShortRatio env d.symbols w).2).1.1.toList = [] →
      (d.CollectAllData env w).1.1.toList.length =
        (d.binanceService.GetMultipleSymbolsLongShortRatio env d.symbols
          w).1.1.toList.length) ∧
    (d.CollectAllData env w).1.1.toList =
      successes (BinanceService.fetchEach env d.binanceService d.symbols w).1 ++
      successes (OKXService.fetchEach env d.symbols d.okxService
        (BinanceService.fetchEach env d.binanceService d.symbols w).2).1 := by
  have hlist : (d.CollectAllData env w).1.1.toList =
      (d.binanceService.GetMultipleSymbolsLongShortRatio env d.symbols w).1.1.toList ++
      (d.okxService.GetMultipleSymbolsLongShortRatio env d.symbols
        (d.binanceService.GetMultipleSymbolsLongShortRatio env d.symbols w).2).1.1.toList := by
    unfold DataCollectionService.CollectAllData
    have hb : (d.binanceService.GetMultipleSymbolsLongShortRatio env d.symbols w).1.2 = none :=
      rfl
    have ho : (d.okxService.GetMultipleSymbolsLongShortRatio env d.symbols
        (d.binanceService.GetMultipleSymbolsLongShortRatio env d.symbols w).2).1.2 = none :=
      rfl
    simp only [hb, ho, Slice.toList_appendAll]
    simp [Slice.toList]
  refine ⟨rfl, hlist, ?_, ?_, ?_⟩
  · intro h
    rw [hlist, h, List.nil_append]
  · intro h
    rw [hlist, h, List.append_nil]
  · obtain ⟨hb1, hb2⟩ := binance_getMultiple_eq env d.binanceService d.symbols w
    rw [hlist, hb1, hb2]
    rw [(okx_getMultiple_eq env d.okxService d.symbols _).1]

theorem timeNow_reqs (env : Env) (w : World) : (timeNow env w).2.reqs = w.reqs := rfl

theorem throttle_reqs (env : Env) (o : OKXService) (w : World) :
    (o.throttle env w).2.reqs = w.reqs := by
  unfold OKXService.throttle
  simp only [timeNow_reqs]
  split <;> rfl

theorem binance_url_5m_1 (b : BinanceService) (symbol : String) :
    b.url symbol "5m" 1 =
      b.baseURL ++ "/futures/data/globalLongShortAccountRatio?symbol=" ++ symbol ++
        "&period=5m&limit=1" := by
  unfold BinanceService.url
  have h : "&period=" ++ ("5m" ++ ("&limit=" ++ toString (1 : Int))) = "&period=5m&limit=1" := by
    decide
  rw [← h]
  simp only [String.append_assoc]

theorem okx_url_5m_1 (o : OKXService) (symbol : String) :
    o.baseURL ++ "/api/v5/rubik/stat/contracts/long-short-account-ratio?ccy=" ++
        OKXService.convertSymbol symbol ++ "&period=" ++ "5m" ++ "&limit=" ++
        toString (1 : Int) =
      o.baseURL ++ "/api/v5/rubik/stat/contracts/long-short-account-ratio?ccy=" ++
        OKXService.convertSymbol symbol ++ "&period=5m&limit=1" := by
  have h : "&period=" ++ ("5m" ++ ("&limit=" ++ toString (1 : Int))) = "&period=5m&limit=1" := by
    decide
  rw [← h]
  simp only [String.append_assoc]

/-- C8. For both clients `GetLongShortRatio(symbol)` is
`GetLongShortRatioWithPeriod(symbol, "5m", 1)`, whose request carries `period=5m` and
`limit=1`; when the upstream answers that request with status 200 and a decoded payload
whose first entry is well formed, the call returns the reading built from that first
entry alone: the identifier of the exchange, the requested symbol, the parsed ratio
and observed-at = timestamp-ms / 1000 in whole seconds, whatever the later entries are. -/
theorem getLongShortRatio_first_entry (env : Env) (b : BinanceService) (o : OKXService)
    (symbol : String) (w : World) :
    (b.GetLongShortRatio env symbol w = b.GetLongShortRatioWithPeriod env symbol "5m" 1 w ∧
      ∀ (first : BinanceLongShortRatioResponse) (rest : List BinanceLongShortRatioResponse)
        (v : Float64),
        env.binanceGet w.reqs
            (b.baseURL ++ "/futures/data/globalLongShortAccountRatio?symbol=" ++ symbol ++
              "&period=5m&limit=1") = .response 200 (.decoded (first :: rest)) →
        env.ParseFloat first.LongShortRatio = some v →
        (b.GetLongShortRatio env symbol w).1 =
          .ok ⟨"binance", symbol, v, timeUnix (Int.tdiv first.Timestamp 1000) 0⟩) ∧
    (o.GetLongShortRatio env symbol w = o.GetLongShortRatioWithPeriod env symbol "5m" 1 w ∧
      ∀ (msg ts ratio : String) (more : List String) (rest : List (List String))
        (v : Float64) (t : Int),
        env.okxGet w.reqs
            (o.baseURL ++ "/api/v5/rubik/stat/contracts/long-short-account-ratio?ccy=" ++
              OKXService.convertSymbol symbol ++ "&period=5m&limit=1") =
          .response 200 (.decoded ⟨"0", msg, (ts :: ratio :: more) :: rest⟩) →
        env.ParseFloat ratio = some v →
        ParseInt ts = some t →
        (o.GetLongShortRatio env symbol w).1 =
          .ok ⟨"okx", symbol, v, timeUnix (Int.tdiv t 1000) 0⟩) := by
  refine ⟨⟨rfl, ?_⟩, ⟨rfl, ?_⟩⟩
  · intro first rest v hget hparse
    rw [← binance_url_5m_1] at hget
    unfold BinanceService.GetLongShortRatio BinanceService.GetLongShortRatioWithPeriod
    simp only [hget, hparse]
    rfl
  · intro msg ts ratio more rest v t hget hparse hts
    rw [← okx_url_5m_1] at hget
    unfold OKXService.GetLongShortRatio OKXService.GetLongShortRatioWithPeriod
    simp only [throttle_reqs, hget, hparse, hts]
    rfl

/-- Witness for C8: both clients against the payloads of the specification; the second
OKX pair does not show in the result. -/
theorem getLongShortRatio_first_entry_witness :
    (NewBinanceService.GetLongShortRatio liveEnv "BTCUSDT" emptyWorld).1 =
      .ok ⟨"binance", "BTCUSDT", ⟨0x4004000000000000⟩, timeUnix 1700000000 0⟩ ∧
    (NewOKXService.GetLongShortRatio liveEnv "BTCUSDT" emptyWorld).1 =
      .ok ⟨"okx", "BTCUSDT", ⟨0x3FF3BE76C8B43958⟩, timeUnix 1700000000 0⟩ :=
  ⟨(getLongShortRatio_first_entry liveEnv NewBinanceService NewOKXService "BTCUSDT"
      emptyWorld).1.2 ⟨"BTCUSDT", "2.5", "", "", 1700000000000⟩ [] ⟨0x4004000000000000⟩
      rfl rfl,
    (getLongShortRatio_first_entry liveEnv NewBinanceService NewOKXService "BTCUSDT"
      emptyWorld).2.2 "" "1700000000000" "1.234" [] [["1699999700000", "1.10"]]
      ⟨0x3FF3BE76C8B43958⟩ 1700000000000 rfl rfl (by decide)⟩

theorem okx_collect_eq (env : Env) (symbol : String) (limit : Int)
    (data : List (List String)) :
    ∀ (count : Int) (results : Slice LongShortRatioData),
      (OKXService.collect env symbol limit data count results).toList =
        results.toList ++
          (data.filterMap (okxNormalise env symbol)).take (limit - count).toNat := by
  induction data with
  | nil => intro count results; simp [OKXService.collect]
  | cons d rest ih =>
    intro count results
    by_cases hc : count ≥ limit
    · have h0 : (limit - count).toNat = 0 := by omega
      unfold OKXService.collect
      simp [hc, h0]
    · have hpos : (limit - count).toNat = (limit - (count + 1)).toNat + 1 := by omega
      match d with
      | [] =>
        unfold OKXService.collect
        simp only [hc, if_false]
        rw [ih, List.filterMap_cons]
        rfl
      | [_] =>
        unfold OKXService.collect
        simp only [hc, if_false]
        rw [ih, List.filterMap_cons]
        rfl
      | ts :: ratio :: more =>
        unfold OKXService.collect
        simp only [hc, if_false]
        rw [List.filterMap_cons]
        cases hf : env.ParseFloat ratio with
        | none =>
          have hn : okxNormalise env symbol (ts :: ratio :: more) = none := by
            simp [okxNormalise, hf]
          rw [hn]
          simp only []
          rw [ih]
        | some v =>
          cases hi : ParseInt ts with
          | none =>
            have hn : okxNormalise env symbol (ts :: ratio :: more) = none := by
              simp [okxNormalise, hf, hi]
            rw [hn]
            simp only []
            rw [ih]
          | some t =>
            have hn : okxNormalise env symbol (ts :: ratio :: more) =
                some (okxReading symbol v t) := by
              simp [okxNormalise, hf, hi]
            rw [hn]
            simp only []
            rw [ih, hpos, List.take_succ_cons, Slice.toList_append]
            simp

theorem okxNormalise_fields (env : Env) (symbol : String) (data : List String)
    (r : LongShortRatioData) (h : okxNormalise env symbol data = some r) :
    r.Exchange = "okx" ∧ r.Symbol = symbol := by
  unfold okxNormalise at h
  split at h
  · split at h
    · cases h
    · split at h
      · cases h
      · simp only [Option.some.injEq] at h
        rw [← h]
        exact ⟨rfl, rfl⟩
  · cases h

theorem binance_collect_eq (env : Env) (symbol : String)
    (payload : List BinanceLongShortRatioResponse) :
    ∀ (results : Slice LongShortRatioData),
      (BinanceService.collect env symbol payload results).toList =
        results.toList ++ payload.filterMap (binanceNormalise env symbol) := by
  induction payload with
  | nil => intro results; simp [BinanceService.collect]
  | cons e rest ih =>
    intro results
    unfold BinanceService.collect
    rw [List.filterMap_cons]
    cases hf : env.ParseFloat e.LongShortRatio with
    | none =>
      have hn : binanceNormalise env symbol e = none := by simp [binanceNormalise, hf]
      rw [hn]
      simp only []
      rw [ih]
    | some v =>
      have hn : binanceNormalise env symbol e =
          some (binanceReading symbol v e.Timestamp) := by
        simp [binanceNormalise, hf]
      rw [hn]
      simp only []
      rw [ih, Slice.toList_append]
      simp

theorem binanceNormalise_fields (env : Env) (symbol : String)
    (e : BinanceLongShortRatioResponse) (r : LongShortRatioData)
    (h : binanceNormalise env symbol e = some r) :
    r.Exchange = "binance" ∧ r.Symbol = symbol ∧
      env.ParseFloat e.LongShortRatio = some r.Ratio ∧
      r.Timestamp = timeUnix (Int.tdiv e.Timestamp 1000) 0 := by
  unfold binanceNormalise at h
  cases hf : env.ParseFloat e.LongShortRatio with
  | none => simp [hf] at h
  | some v =>
    simp only [hf, Option.some.injEq] at h
    rw [← h]
    exact ⟨rfl, rfl, rfl, rfl⟩

/-- C10. When the Binance upstream answers the history request with status 200 and a
decoded array of ratio objects (every `longShortRatio` string parses as a float),
`GetLongShortRatioHistory(symbol, period, limit)` returns without error one reading per
array entry, in upstream order, the reading at each position having exchange "binance",
the symbol of the request, the ratio parsed from the string of the entry at that position
and observed-at = timestamp-ms / 1000 in whole seconds. For the array
`[{"symbol":"BTCUSDT","longShortRatio":"2.5","timestamp":1700000000000}]` the result is
the one reading with the ratio parsed from "2.5", symbol "BTCUSDT" as requested and
observed-at `Unix(1700000000)`. (For an arbitrary decoded array the readings are those of
the entries whose string parses, each with exchange "binance" and the symbol of the
request.) -/
theorem binance_history_parsed_entries (env : Env) (b : BinanceService)
    (symbol period : String) (limit : Int) (w : World)
    (payload : List BinanceLongShortRatioResponse)
    (hget : env.binanceGet w.reqs (b.url symbol period limit) =
      .response 200 (.decoded payload)) :
    (b.GetLongShortRatioHistory env symbol period limit w).1.2 = none ∧
    (b.GetLongShortRatioHistory env symbol period limit w).1.1.toList =
      payload.filterMap (binanceNormalise env symbol) ∧
    (∀ r ∈ (b.GetLongShortRatioHistory env symbol period limit w).1.1.toList,
      r.Exchange = "binance" ∧ r.Symbol = symbol) ∧
    ((∀ e ∈ payload, ∃ v, env.ParseFloat e.LongShortRatio = some v) →
      (b.GetLongShortRatioHistory env symbol period limit w).1.1.toList.length =
        payload.length ∧
      ∀ (i : Nat) (e : BinanceLongShortRatioResponse), payload[i]? = some e →
        ∃ r, (b.GetLongShortRatioHistory env symbol period limit w).1.1.toList[i]? =
            some r ∧
          r.Exchange = "binance" ∧ r.Symbol = symbol ∧
          env.ParseFloat e.LongShortRatio = some r.Ratio ∧
          r.Timestamp = timeUnix (Int.tdiv e.Timestamp 1000) 0) ∧
    (∀ v : Float64, env.ParseFloat "2.5" = some v →
      payload = [⟨"BTCUSDT", "2.5", "", "", 1700000000000⟩] →
      (b.GetLongShortRatioHistory env symbol period limit w).1.1.toList =
        [⟨"binance", symbol, v, timeUnix 1700000000 0⟩]) := by
  have hres : (b.GetLongShortRatioHistory env symbol period limit w).1 =
      (BinanceService.collect env symbol payload .nil, none) := by
    unfold BinanceService.GetLongShortRatioHistory
    simp only [timeNow_reqs, hget]
    rfl
  have hlist : (b.GetLongShortRatioHistory env symbol period limit w).1.1.toList =
      payload.filterMap (binanceNormalise env symbol) := by
    rw [hres, binance_collect_eq]
    simp [Slice.toList]
  refine ⟨by rw [hres], hlist, ?_, ?_, ?_⟩
  · intro r hr
    rw [hlist, List.mem_filterMap] at hr
    obtain ⟨e, _, he⟩ := hr
    exact ⟨(binanceNormalise_fields env symbol e r he).1,
      (binanceNormalise_fields env symbol e r he).2.1⟩
  · intro hall
    have hmap : payload.filterMap (binanceNormalise env symbol) =
        payload.map (fun e =>
          match env.ParseFloat e.LongShortRatio with
          | some v => binanceReading symbol v e.Timestamp
          | none => binanceReading symbol ⟨0⟩ e.Timestamp) := by
      clear hget hres hlist
      induction payload with
      | nil => rfl
      | cons e rest ih =>
        obtain ⟨v, hv⟩ := hall e (List.mem_cons_self _ _)
        rw [List.filterMap_cons, List.map_cons,
          ih (fun x hx => hall x (List.mem_cons_of_mem _ hx))]
        simp [binanceNormalise, hv]
    rw [hlist, hmap]
    refine ⟨List.length_map _ _, ?_⟩
    intro i e hi
    obtain ⟨v, hv⟩ := hall e (List.getElem?_mem hi)
    refine ⟨binanceReading symbol v e.Timestamp, ?_, rfl, rfl, hv, rfl⟩
    rw [List.getElem?_map, hi]
    simp [hv]
  · intro v hv hpayload
    rw [hlist, hpayload]
    simp [binanceNormalise, hv, binanceReading]
    decide

/-- Witness for C10: the payload of the specification, a one-entry array of a ratio
object, gives one reading. -/
theorem binance_history_parsed_entries_witness :
    (NewBinanceService.GetLongShortRatioHistory liveEnv "BTCUSDT" "5m" 30 emptyWorld).1.2 =
      none ∧
    (NewBinanceService.GetLongShortRatioHistory liveEnv "BTCUSDT" "5m" 30
        emptyWorld).1.1.toList.length = sampleBinancePayload.length ∧
    (NewBinanceService.GetLongShortRatioHistory liveEnv "BTCUSDT" "5m" 30
        emptyWorld).1.1.toList =
      [⟨"binance", "BTCUSDT", ⟨0x4004000000000000⟩, timeUnix 1700000000 0⟩] :=
  ⟨(binance_history_parsed_entries liveEnv NewBinanceService "BTCUSDT" "5m" 30 emptyWorld
      sampleBinancePayload rfl).1,
    ((binance_history_parsed_entries liveEnv NewBinanceService "BTCUSDT" "5m" 30 emptyWorld
      sampleBinancePayload rfl).2.2.2.1
        (fun e he => by
          simp only [sampleBinancePayload, List.mem_singleton] at he
          subst he
          exact ⟨⟨0x4004000000000000⟩, by decide⟩)).1,
    (binance_history_parsed_entries liveEnv NewBinanceService "BTCUSDT" "5m" 30 emptyWorld
      sampleBinancePayload rfl).2.2.2.2 ⟨0x4004000000000000⟩ rfl rfl⟩

theorem string_append_usdt_data (p : String) :
    (p ++ "USDT").data = p.data ++ ['U', 'S', 'D', 'T'] := by
  rw [String.data_append]

theorem string_append_usdt_length (p : String) : (p ++ "USDT").length = p.length + 4 := by
  show (p ++ "USDT").data.length = p.data.length + 4
  rw [string_append_usdt_data]
  simp

theorem string_append_usdt_cancel (p q : String) (h : p ++ "USDT" = q ++ "USDT") : p = q := by
  have hd : (p ++ "USDT").data = (q ++ "USDT").data := by rw [h]
  rw [string_append_usdt_data, string_append_usdt_data] at hd
  exact String.ext (List.append_cancel_right hd)

theorem convertSymbol_strips (p : String) (hp : p ≠ "") :
    OKXService.convertSymbol (p ++ "USDT") = p := by
  unfold OKXService.convertSymbol
  by_cases h1 : p ++ "USDT" = "BTCUSDT"
  · rw [if_pos h1]
    exact (string_append_usdt_cancel p "BTC" h1).symm
  · rw [if_neg h1]
    by_cases h2 : p ++ "USDT" = "ETHUSDT"
    · rw [if_pos h2]
      exact (string_append_usdt_cancel p "ETH" h2).symm
    · rw [if_neg h2]
      have hlen : (p ++ "USDT").length - 4 = p.data.length := by
        rw [string_append_usdt_length]
        show p.data.length + 4 - 4 = p.data.length
        omega
      have hpos : p.data.length > 0 := by
        rcases hdata : p.data with _ | ⟨c, cs⟩
        · exact absurd (String.ext hdata) hp
        · simp
      have hgt : (p ++ "USDT").length > 4 := by
        rw [string_append_usdt_length]
        show p.data.length + 4 > 4
        omega
      have hdrop : String.mk ((p ++ "USDT").data.drop ((p ++ "USDT").length - 4)) = "USDT" := by
        rw [hlen, string_append_usdt_data, List.drop_left]
      rw [if_pos ⟨hgt, hdrop⟩, hlen, string_append_usdt_data, List.take_left]

theorem convertSymbol_cases (symbol : String) :
    (∃ p : String, p ≠ "" ∧ symbol = p ++ "USDT" ∧ OKXService.convertSymbol symbol = p) ∨
    ((symbol.length ≤ 4 ∨ ¬ ∃ p : String, symbol = p ++ "USDT") ∧
      OKXService.convertSymbol symbol = symbol) := by
  by_cases hlen : symbol.length ≤ 4
  · right
    refine ⟨Or.inl hlen, ?_⟩
    unfold OKXService.convertSymbol
    have h1 : symbol ≠ "BTCUSDT" := by
      intro h; rw [h] at hlen; revert hlen; decide
    have h2 : symbol ≠ "ETHUSDT" := by
      intro h; rw [h] at hlen; revert hlen; decide
    have h3 : ¬ (symbol.length > 4 ∧
        String.mk (symbol.data.drop (symbol.length - 4)) = "USDT") := by
      intro h; omega
    rw [if_neg h1, if_neg h2, if_neg h3]
  · by_cases hsuf : ∃ p : String, symbol = p ++ "USDT"
    · left
      obtain ⟨p, hp⟩ := hsuf
      have hne : p ≠ "" := by
        intro h
        rw [hp, h] at hlen
        revert hlen
        decide
      exact ⟨p, hne, hp, by rw [hp]; exact convertSymbol_strips p hne⟩
    · right
      refine ⟨Or.inr hsuf, ?_⟩
      unfold OKXService.convertSymbol
      have h1 : symbol ≠ "BTCUSDT" := fun h => hsuf ⟨"BTC", by rw [h]; rfl⟩
      have h2 : symbol ≠ "ETHUSDT" := fun h => hsuf ⟨"ETH", by rw [h]; rfl⟩
      have h3 : ¬ (symbol.length > 4 ∧
          String.mk (symbol.data.drop (symbol.length - 4)) = "USDT") := by
        rintro ⟨_, hd⟩
        apply hsuf
        refine ⟨String.mk (symbol.data.take (symbol.length - 4)), ?_⟩
        apply String.ext
        rw [string_append_usdt_data]
        have hd2 : symbol.data.drop (symbol.length - 4) = ['U', 'S', 'D', 'T'] := by
          have := congrArg String.data hd
          exact this
        rw [← hd2, List.take_append_drop]
      rw [if_neg h1, if_neg h2, if_neg h3]

/-- C11. `convertSymbol` maps "BTCUSDT" to "BTC", "ETHUSDT" to "ETH" and "XRPUSDT" to
"XRP"; for every symbol that is a non-empty string followed by "USDT" (more than 4
characters, ending in "USDT") it returns that string, the symbol without the suffix;
every other symbol (of at most 4 characters, such as "USDT" itself, or not ending in
"USDT") is returned unchanged; so a non-empty symbol never gives the empty string. -/
theorem convertSymbol_strips_usdt :
    OKXService.convertSymbol "BTCUSDT" = "BTC" ∧
    OKXService.convertSymbol "ETHUSDT" = "ETH" ∧
    OKXService.convertSymbol "XRPUSDT" = "XRP" ∧
    OKXService.convertSymbol "USDT" = "USDT" ∧
    (∀ p : String, p ≠ "" → OKXService.convertSymbol (p ++ "USDT") = p) ∧
    (∀ symbol : String, symbol.length > 4 → (∃ p : String, symbol = p ++ "USDT") →
      OKXService.convertSymbol symbol ++ "USDT" = symbol ∧
      (OKXService.convertSymbol symbol).length = symbol.length - 4) ∧
    (∀ symbol : String, (symbol.length ≤ 4 ∨ ¬ ∃ p : String, symbol = p ++ "USDT") →
      OKXService.convertSymbol symbol = symbol) ∧
    (∀ symbol : String, symbol ≠ "" → OKXService.convertSymbol symbol ≠ "") := by
  refine ⟨by decide, by decide, by decide, by decide, convertSymbol_strips, ?_, ?_, ?_⟩
  · rintro symbol hlen ⟨p, hp⟩
    have hne : p ≠ "" := by
      intro h
      rw [hp, h] at hlen
      revert hlen
      decide
    rw [hp, convertSymbol_strips p hne, string_append_usdt_length]
    exact ⟨rfl, by omega⟩
  · intro symbol hs
    rcases convertSymbol_cases symbol with ⟨p, hne, hp, _⟩ | ⟨_, h⟩
    · rcases hs with hlen | hno
      · rw [hp, string_append_usdt_length] at hlen
        have hpos : p.length > 0 := by
          rcases hdata : p.data with _ | ⟨c, cs⟩
          · exact absurd (String.ext hdata) hne
          · show p.data.length > 0
            rw [hdata]; simp
        omega
      · exact absurd ⟨p, hp⟩ hno
    · exact h
  · intro symbol hs
    rcases convertSymbol_cases symbol with ⟨p, hne, _, hc⟩ | ⟨_, h⟩
    · rw [hc]; exact hne
    · rw [h]; exact hs

theorem maxLogID_ge (rows : List APILog) (x : APILog) (hx : x ∈ rows) :
    x.ID ≤ maxLogID rows := by
  induction rows with
  | nil => simp at hx
  | cons a t ih =>
    simp only [maxLogID, List.foldr_cons]
    rcases List.mem_cons.mp hx with h | h
    · subst h; exact le_max_left _ _
    · exact le_trans (ih h) (le_max_right _ _)

theorem saveLog_appends (env : Env) (apiLog : APILog) (w : World)
    (hdb : env.GetDB = true) (hfault : env.fault w.stmts = none) (hid : apiLog.ID = 0) :
    ∃ (id : Nat) (t : Int),
      (saveLog env apiLog w).logs.rows =
        w.logs.rows ++ [{ apiLog with ID := id, CreatedAt := t }] ∧
      (saveLog env apiLog w).ratios = w.ratios := by
  unfold saveLog APILogRepository.Create
  simp only [hdb, if_true, beginStmt, hfault, hid]
  have hfresh : (w.logs.rows.any
      (fun x => decide (x.ID = max w.logs.seq (maxLogID w.logs.rows) + 1))) = false := by
    rw [List.any_eq_false]
    intro x hx hdec
    have h1 := maxLogID_ge _ x hx
    have h2 : x.ID = max w.logs.seq (maxLogID w.logs.rows) + 1 := by simpa using hdec
    have h3 := le_max_right w.logs.seq (maxLogID w.logs.rows)
    omega
  simp only [hfresh]
  exact ⟨_, _, rfl, rfl⟩

theorem saveLog_skips (env : Env) (apiLog : APILog) (w : World) (hdb : env.GetDB = false) :
    saveLog env apiLog w = w := by
  unfold saveLog
  simp [hdb]

theorem throttle_stmts (env : Env) (o : OKXService) (w : World) :
    (o.throttle env w).2.stmts = w.stmts := by
  unfold OKXService.throttle
  split <;> rfl

theorem throttle_logs (env : Env) (o : OKXService) (w : World) :
    (o.throttle env w).2.logs = w.logs := by
  unfold OKXService.throttle
  split <;> rfl

theorem throttle_ratios (env : Env) (o : OKXService) (w : World) :
    (o.throttle env w).2.ratios = w.ratios := by
  unfold OKXService.throttle
  split <;> rfl

theorem binance_history_log (env : Env) (b : BinanceService) (symbol period : String)
    (limit : Int) (w : World) (hdb : env.GetDB = true) (hfault : env.fault w.stmts = none) :
    ∃ entry : APILog,
      (b.GetLongShortRatioHistory env symbol period limit w).2.logs.rows =
        w.logs.rows ++ [entry] ∧
      entry.Exchange = "binance" ∧ entry.Symbol = symbol ∧ entry.Period = period ∧
      entry.Limit = limit ∧ entry.URL = b.url symbol period limit ∧
      entry.StatusCode = loggedStatus (env.binanceGet w.reqs (b.url symbol period limit)) ∧
      (entry.Success = true ↔
        (b.GetLongShortRatioHistory env symbol period limit w).1.2 = none) ∧
      ((b.GetLongShortRatioHistory env symbol period limit w).1.2 = none →
        entry.ErrorMsg = "" ∧
        entry.DataCount = (b.GetLongShortRatioHistory env symbol period limit w).1.1.len) ∧
      (((b.GetLongShortRatioHistory env symbol period limit w).1.2 = none) ↔
        binanceFails (env.binanceGet w.reqs (b.url symbol period limit)) = false) := by
  have hf3 : ∀ t, env.fault (timeSince env t
      { (timeNow env w).2 with reqs := (timeNow env w).2.reqs + 1 }).2.stmts = none := by
    intro t; exact hfault
  unfold BinanceService.GetLongShortRatioHistory
  simp only [timeNow_reqs]
  cases hget : env.binanceGet w.reqs (b.url symbol period limit) with
  | transportError cause =>
    simp only []
    obtain ⟨id, t, hrows, _⟩ := saveLog_appends env _ _ hdb (hf3 (timeNow env w).1)
      (show ({ ({ newAPILog "binance" symbol period limit (b.url symbol period limit) with
          ResponseTime := Int.tdiv (timeSince env (timeNow env w).1
            { (timeNow env w).2 with reqs := (timeNow env w).2.reqs + 1 }).1 1000000 }) with
          Success := false, ErrorMsg := cause, StatusCode := 0 } : APILog).ID = 0 from rfl)
    refine ⟨_, hrows, rfl, rfl, rfl, rfl, rfl, rfl, ?_, ?_, ?_⟩ <;> simp [binanceFails]
  | response status body =>
    simp only []
    by_cases hs : status ≠ 200
    · rw [if_pos hs]
      obtain ⟨id, t, hrows, _⟩ := saveLog_appends env _ _ hdb (hf3 (timeNow env w).1)
        (show ({ ({ ({ newAPILog "binance" symbol period limit (b.url symbol period limit) with
            ResponseTime := Int.tdiv (timeSince env (timeNow env w).1
              { (timeNow env w).2 with reqs := (timeNow env w).2.reqs + 1 }).1 1000000 }) with
            StatusCode := status }) with
            Success := false, ErrorMsg := "HTTP状态码: " ++ toString status } : APILog).ID = 0
          from rfl)
      refine ⟨_, hrows, rfl, rfl, rfl, rfl, rfl, rfl, ?_, ?_, ?_⟩ <;> simp [binanceFails, hs]
    · rw [if_neg hs]
      cases body with
      | readError cause =>
        simp only []
        obtain ⟨id, t, hrows, _⟩ := saveLog_appends env _ _ hdb (hf3 (timeNow env w).1)
          (show ({ ({ ({ newAPILog "binance" symbol period limit (b.url symbol period limit) with
              ResponseTime := Int.tdiv (timeSince env (timeNow env w).1
                { (timeNow env w).2 with reqs := (timeNow env w).2.reqs + 1 }).1 1000000 }) with
              StatusCode := status }) with
              Success := false, ErrorMsg := cause } : APILog).ID = 0 from rfl)
        refine ⟨_, hrows, rfl, rfl, rfl, rfl, rfl, rfl, ?_, ?_, ?_⟩ <;>
          simp [binanceFails, hs]
      | malformed cause =>
        simp only []
        obtain ⟨id, t, hrows, _⟩ := saveLog_appends env _ _ hdb (hf3 (timeNow env w).1)
          (show ({ ({ ({ newAPILog "binance" symbol period limit (b.url symbol period limit) with
              ResponseTime := Int.tdiv (timeSince env (timeNow env w).1
                { (timeNow env w).2 with reqs := (timeNow env w).2.reqs + 1 }).1 1000000 }) with
              StatusCode := status }) with
              Success := false, ErrorMsg := cause } : APILog).ID = 0 from rfl)
        refine ⟨_, hrows, rfl, rfl, rfl, rfl, rfl, rfl, ?_, ?_, ?_⟩ <;>
          simp [binanceFails, hs]
      | decoded ratios =>
        simp only []
        obtain ⟨id, t, hrows, _⟩ := saveLog_appends env _ _ hdb (hf3 (timeNow env w).1)
          (show ({ ({ ({ newAPILog "binance" symbol period limit (b.url symbol period limit) with
              ResponseTime := Int.tdiv (timeSince env (timeNow env w).1
                { (timeNow env w).2 with reqs := (timeNow env w).2.reqs + 1 }).1 1000000 }) with
              StatusCode := status }) with
              Success := true,
              DataCount := (BinanceService.collect env symbol ratios .nil).len } : APILog).ID = 0
            from rfl)
        refine ⟨_, hrows, rfl, rfl, rfl, rfl, rfl, rfl, ?_, ?_, ?_⟩ <;>
          simp [binanceFails, hs, newAPILog]

theorem saveLog_rows (env : Env) (apiLog : APILog) (w : World)
    (hdb : env.GetDB = true) (hfault : env.fault w.stmts = none) (hid : apiLog.ID = 0) :
    (saveLog env apiLog w).logs.rows =
      w.logs.rows ++ [{ apiLog with
        ID := max w.logs.seq (maxLogID w.logs.rows) + 1
        CreatedAt := assignTime apiLog.CreatedAt
          (timeNow env { w with stmts := w.stmts + 1 }).1 }] := by
  unfold saveLog APILogRepository.Create
  simp only [hdb, if_true, beginStmt, hfault, hid]
  have hfresh : (w.logs.rows.any
      (fun x => decide (x.ID = max w.logs.seq (maxLogID w.logs.rows) + 1))) = false := by
    rw [List.any_eq_false]
    intro x hx hdec
    have h1 := maxLogID_ge _ x hx
    have h2 : x.ID = max w.logs.seq (maxLogID w.logs.rows) + 1 := by simpa using hdec
    have h3 := le_max_right w.logs.seq (maxLogID w.logs.rows)
    omega
  simp only [hfresh]
  rfl

theorem okx_history_log (env : Env) (o : OKXService) (symbol period : String)
    (limit : Int) (w : World) (hdb : env.GetDB = true) (hfault : env.fault w.stmts = none) :
    ∃ entry : APILog,
      (o.GetLongShortRatioHistory env symbol period limit w).2.2.logs.rows =
        w.logs.rows ++ [entry] ∧
      entry.Exchange = "okx" ∧ entry.Symbol = symbol ∧ entry.Period = period ∧
      entry.Limit = limit ∧ entry.URL = o.historyURL symbol period ∧
      entry.StatusCode = loggedStatus (env.okxGet w.reqs (o.historyURL symbol period)) ∧
      (entry.Success = true ↔
        (o.GetLongShortRatioHistory env symbol period limit w).1.2 = none) ∧
      ((o.GetLongShortRatioHistory env symbol period limit w).1.2 = none →
        entry.ErrorMsg = "" ∧
        entry.DataCount = (o.GetLongShortRatioHistory env symbol period limit w).1.1.len) ∧
      (((o.GetLongShortRatioHistory env symbol period limit w).1.2 = none) ↔
        okxFails (env.okxGet w.reqs (o.historyURL symbol period)) = false) := by
  have hlogs : (o.throttle env (timeNow env w).2).2.logs = w.logs := by
    rw [throttle_logs]; rfl
  have hstmts : (o.throttle env (timeNow env w).2).2.stmts = w.stmts := by
    rw [throttle_stmts]; rfl
  unfold OKXService.GetLongShortRatioHistory
  simp only [timeNow_reqs, throttle_reqs]
  unfold OKXService.historyURL
  cases hget : env.okxGet w.reqs
      (o.baseURL ++ "/api/v5/rubik/stat/contracts/long-short-account-ratio?ccy=" ++
        OKXService.convertSymbol symbol ++ "&period=" ++ period) with
  | transportError cause =>
    simp only []
    rw [saveLog_rows]
    · exact ⟨_, by rw [← hlogs]; rfl, rfl, rfl, rfl, rfl, rfl, rfl, by simp, by simp,
        by simp [okxFails]⟩
    · exact hdb
    · show env.fault (o.throttle env (timeNow env w).2).2.stmts = none
      rw [hstmts]; exact hfault
    · rfl
  | response status body =>
    simp only []
    by_cases hs : status ≠ 200
    · rw [if_pos hs, saveLog_rows]
      · exact ⟨_, by rw [← hlogs]; rfl, rfl, rfl, rfl, rfl, rfl, rfl, by simp, by simp,
          by simp [okxFails, hs]⟩
      · exact hdb
      · show env.fault (o.throttle env (timeNow env w).2).2.stmts = none
        rw [hstmts]; exact hfault
      · rfl
    · rw [if_neg hs]
      cases body with
      | readError cause =>
        simp only []
        rw [saveLog_rows]
        · exact ⟨_, by rw [← hlogs]; rfl, rfl, rfl, rfl, rfl, rfl, rfl, by simp, by simp,
            by simp [okxFails, hs]⟩
        · exact hdb
        · show env.fault (o.throttle env (timeNow env w).2).2.stmts = none
          rw [hstmts]; exact hfault
        · rfl
      | malformed cause =>
        simp only []
        rw [saveLog_rows]
        · exact ⟨_, by rw [← hlogs]; rfl, rfl, rfl, rfl, rfl, rfl, rfl, by simp, by simp,
            by simp [okxFails, hs]⟩
        · exact hdb
        · show env.fault (o.throttle env (timeNow env w).2).2.stmts = none
          rw [hstmts]; exact hfault
        · rfl
      | decoded response =>
        simp only []
        by_cases hc : response.Code ≠ "0"
        · rw [if_pos hc, saveLog_rows]
          · exact ⟨_, by rw [← hlogs]; rfl, rfl, rfl, rfl, rfl, rfl, rfl, by simp, by simp,
              by simp [okxFails, hs, hc]⟩
          · exact hdb
          · show env.fault (o.throttle env (timeNow env w).2).2.stmts = none
            rw [hstmts]; exact hfault
          · rfl
        · rw [if_neg hc, saveLog_rows]
          · refine ⟨_, by rw [← hlogs]; rfl, rfl, rfl, rfl, rfl, rfl, rfl, by simp, ?_, ?_⟩
            · intro _
              exact ⟨rfl, rfl⟩
            · simp only [okxFails, true_iff]
              rw [if_neg hs]
              simpa using hc
          · exact hdb
          · show env.fault (o.throttle env (timeNow env w).2).2.stmts = none
            rw [hstmts]; exact hfault
          · rfl

/-- C12. With the storage handle present and the insert of the entry succeeding, one
call of `GetLongShortRatioHistory`, of either client and whatever the upstream does
(transport failure, status other than 200, unreadable body, malformed JSON, OKX error
code, or success), appends exactly one entry to the request log. The entry names the
exchange, symbol, period, limit and URL of the call; its success flag is true exactly
when the call returns no error; its status code is 0 when the call never completed and
the status of the response otherwise; and when the call succeeds its error message is
empty and its data count is the number of readings returned. -/
theorem history_appends_one_log_entry (env : Env) (b : BinanceService) (o : OKXService)
    (symbol period : String) (limit : Int) (w : World)
    (hdb : env.GetDB = true) (hfault : env.fault w.stmts = none) :
    (∃ entry : APILog,
      (b.GetLongShortRatioHistory env symbol period limit w).2.logs.rows =
        w.logs.rows ++ [entry] ∧
      entry.Exchange = "binance" ∧ entry.Symbol = symbol ∧ entry.Period = period ∧
      entry.Limit = limit ∧ entry.URL = b.url symbol period limit ∧
      (entry.Success = true ↔
        (b.GetLongShortRatioHistory env symbol period limit w).1.2 = none) ∧
      entry.StatusCode = loggedStatus (env.binanceGet w.reqs (b.url symbol period limit)) ∧
      ((∃ cause, env.binanceGet w.reqs (b.url symbol period limit) =
          .transportError cause) → entry.StatusCode = 0) ∧
      ((b.GetLongShortRatioHistory env symbol period limit w).1.2 = none →
        entry.ErrorMsg = "" ∧
        entry.DataCount =
          (b.GetLongShortRatioHistory env symbol period limit w).1.1.toList.length)) ∧
    (∃ entry : APILog,
      (o.GetLongShortRatioHistory env symbol period limit w).2.2.logs.rows =
        w.logs.rows ++ [entry] ∧
      entry.Exchange = "okx" ∧ entry.Symbol = symbol ∧ entry.Period = period ∧
      entry.Limit = limit ∧ entry.URL = o.historyURL symbol period ∧
      (entry.Success = true ↔
        (o.GetLongShortRatioHistory env symbol period limit w).1.2 = none) ∧
      entry.StatusCode = loggedStatus (env.okxGet w.reqs (o.historyURL symbol period)) ∧
      ((∃ cause, env.okxGet w.reqs (o.historyURL symbol period) =
          .transportError cause) → entry.StatusCode = 0) ∧
      ((o.GetLongShortRatioHistory env symbol period limit w).1.2 = none →
        entry.ErrorMsg = "" ∧
        entry.DataCount =
          (o.GetLongShortRatioHistory env symbol period limit w).1.1.toList.length)) := by
  constructor
  · obtain ⟨entry, hrows, hex, hsy, hpe, hli, hurl, hst, hsucc, hok, _⟩ :=
      binance_history_log env b symbol period limit w hdb hfault
    refine ⟨entry, hrows, hex, hsy, hpe, hli, hurl, hsucc, hst, ?_, hok⟩
    rintro ⟨cause, hc⟩
    rw [hst, hc]
    rfl
  · obtain ⟨entry, hrows, hex, hsy, hpe, hli, hurl, hst, hsucc, hok, _⟩ :=
      okx_history_log env o symbol period limit w hdb hfault
    refine ⟨entry, hrows, hex, hsy, hpe, hli, hurl, hsucc, hst, ?_, hok⟩
    rintro ⟨cause, hc⟩
    rw [hst, hc]
    rfl

/-- Witness for C12: a successful Binance call and a refused OKX connection, each on
empty tables, leave one entry each. -/
theorem history_appends_one_log_entry_witness :
    (∃ entry : APILog,
      (NewBinanceService.GetLongShortRatioHistory liveEnv "BTCUSDT" "5m" 30
        emptyWorld).2.logs.rows = [entry] ∧
      entry.Success = true ∧ entry.StatusCode = 200 ∧ entry.ErrorMsg = "" ∧
      entry.DataCount = 1) ∧
    (∃ entry : APILog,
      (NewOKXService.GetLongShortRatioHistory quietEnv "BTCUSDT" "5m" 30
        emptyWorld).2.2.logs.rows = [entry] ∧
      entry.Success = false ∧ entry.StatusCode = 0) := by
  constructor
  · obtain ⟨entry, hrows, _, _, _, _, _, hsucc, hst, _, hok⟩ :=
      (history_appends_one_log_entry liveEnv NewBinanceService NewOKXService "BTCUSDT" "5m" 30
        emptyWorld rfl rfl).1
    have herr : (NewBinanceService.GetLongShortRatioHistory liveEnv "BTCUSDT" "5m" 30
        emptyWorld).1.2 = none := by decide
    have hlen : ((NewBinanceService.GetLongShortRatioHistory liveEnv "BTCUSDT" "5m" 30
        emptyWorld).1.1.toList.length : Int) = 1 := by decide
    exact ⟨entry, hrows, hsucc.mpr herr, hst, (hok herr).1, (hok herr).2.trans hlen⟩
  · obtain ⟨entry, hrows, _, _, _, _, _, hsucc, hst, _, _⟩ :=
      (history_appends_one_log_entry quietEnv NewBinanceService NewOKXService "BTCUSDT" "5m" 30
        emptyWorld rfl rfl).2
    have herr : (NewOKXService.GetLongShortRatioHistory quietEnv "BTCUSDT" "5m" 30
        emptyWorld).1.2 ≠ none := by decide
    refine ⟨entry, hrows, ?_, hst⟩
    cases hs : entry.Success with
    | false => rfl
    | true => exact absurd (hsucc.mp hs) herr

theorem binance_history_error_iff (env : Env) (b : BinanceService)
    (symbol period : String) (limit : Int) (w : World) :
    (b.GetLongShortRatioHistory env symbol period limit w).1.2 ≠ none ↔
      binanceFails (env.binanceGet w.reqs (b.url symbol period limit)) = true := by
  unfold BinanceService.GetLongShortRatioHistory
  simp only [timeNow_reqs]
  cases hget : env.binanceGet w.reqs (b.url symbol period limit) with
  | transportError cause => simp [binanceFails]
  | response status body =>
    simp only []
    by_cases hs : status ≠ 200
    · rw [if_pos hs]
      simp [binanceFails, hs]
    · rw [if_neg hs]
      cases body <;> simp [binanceFails, hs]

theorem okx_history_error_iff (env : Env) (o : OKXService)
    (symbol period : String) (limit : Int) (w : World) :
    (o.GetLongShortRatioHistory env symbol period limit w).1.2 ≠ none ↔
      okxFails (env.okxGet w.reqs (o.historyURL symbol period)) = true := by
  unfold OKXService.GetLongShortRatioHistory
  simp only [timeNow_reqs, throttle_reqs]
  unfold OKXService.historyURL
  cases hget : env.okxGet w.reqs
      (o.baseURL ++ "/api/v5/rubik/stat/contracts/long-short-account-ratio?ccy=" ++
        OKXService.convertSymbol symbol ++ "&period=" ++ period) with
  | transportError cause => simp [okxFails]
  | response status body =>
    simp only []
    by_cases hs : status ≠ 200
    · rw [if_pos hs]
      simp [okxFails, hs]
    · rw [if_neg hs]
      cases body with
      | readError cause => simp [okxFails, hs]
      | malformed cause => simp [okxFails, hs]
      | decoded response =>
        simp only []
        by_cases hc : response.Code ≠ "0"
        · rw [if_pos hc]
          simp [okxFails, hs, hc]
        · rw [if_neg hc]
          simp [okxFails, hs, hc]

theorem binance_withPeriod_world (env : Env) (b : BinanceService) (symbol period : String)
    (limit : Int) (w : World) :
    (b.GetLongShortRatioWithPeriod env symbol period limit w).2 =
      { w with reqs := w.reqs + 1 } := by
  unfold BinanceService.GetLongShortRatioWithPeriod
  simp only []
  split
  · rfl
  · split
    · rfl
    · split
      · rfl
      · rfl
      · rfl
      · split <;> rfl

theorem okx_withPeriod_world (env : Env) (o : OKXService) (symbol period : String)
    (limit : Int) (w : World) :
    (o.GetLongShortRatioWithPeriod env symbol period limit w).2.2 =
      { (o.throttle env w).2 with reqs := (o.throttle env w).2.reqs + 1 } ∧
    (o.GetLongShortRatioWithPeriod env symbol period limit w).2.1 = (o.throttle env w).1 := by
  unfold OKXService.GetLongShortRatioWithPeriod
  simp only []
  split
  · exact ⟨rfl, rfl⟩
  · split
    · exact ⟨rfl, rfl⟩
    · split
      · exact ⟨rfl, rfl⟩
      · exact ⟨rfl, rfl⟩
      · split
        · exact ⟨rfl, rfl⟩
        · split
          · exact ⟨rfl, rfl⟩
          · split
            · split
              · exact ⟨rfl, rfl⟩
              · split <;> exact ⟨rfl, rfl⟩
            · exact ⟨rfl, rfl⟩

theorem binance_fetchEach_log (env : Env) (b : BinanceService) (symbols : List String) :
    ∀ w, (BinanceService.fetchEach env b symbols w).2.logs = w.logs ∧
      (BinanceService.fetchEach env b symbols w).2.reqs = w.reqs + symbols.length := by
  induction symbols with
  | nil => intro w; exact ⟨rfl, rfl⟩
  | cons s rest ih =>
    intro w
    unfold BinanceService.fetchEach
    simp only []
    have hw := binance_withPeriod_world env b s "5m" 1 w
    have hw2 : (b.GetLongShortRatio env s w).2 = { w with reqs := w.reqs + 1 } := hw
    cases hr : (b.GetLongShortRatio env s w).1 with
    | error e =>
      simp only []
      obtain ⟨h1, h2⟩ := ih (b.GetLongShortRatio env s w).2
      rw [h1, h2, hw2]
      simp only [List.length_cons]
      exact ⟨trivial, by omega⟩
    | ok d =>
      simp only []
      obtain ⟨h1, h2⟩ := ih (timeSleep env (100 * Millisecond) (b.GetLongShortRatio env s w).2)
      rw [h1, h2, hw2]
      simp only [List.length_cons, timeSleep]
      exact ⟨trivial, by omega⟩

theorem okx_fetchEach_log (env : Env) (symbols : List String) :
    ∀ o w, (OKXService.fetchEach env symbols o w).2.2.logs = w.logs ∧
      (OKXService.fetchEach env symbols o w).2.2.reqs = w.reqs + symbols.length := by
  induction symbols with
  | nil => intro o w; exact ⟨rfl, rfl⟩
  | cons s rest ih =>
    intro o w
    unfold OKXService.fetchEach
    simp only []
    have hw := (okx_withPeriod_world env o s "5m" 1 w).1
    have hw2 : (o.GetLongShortRatio env s w).2.2 =
        { (o.throttle env w).2 with reqs := (o.throttle env w).2.reqs + 1 } := hw
    cases hr : (o.GetLongShortRatio env s w).1 with
    | error e =>
      simp only []
      obtain ⟨h1, h2⟩ := ih (o.GetLongShortRatio env s w).2.1 (o.GetLongShortRatio env s w).2.2
      rw [h1, h2, hw2]
      simp only [List.length_cons, throttle_logs, throttle_reqs]
      exact ⟨trivial, by omega⟩
    | ok d =>
      simp only []
      obtain ⟨h1, h2⟩ := ih (o.GetLongShortRatio env s w).2.1
        (timeSleep env (100 * Millisecond) (o.GetLongShortRatio env s w).2.2)
      rw [h1, h2, hw2]
      simp only [List.length_cons, timeSleep, throttle_logs, throttle_reqs]
      exact ⟨trivial, by omega⟩

theorem collectAllData_world (env : Env) (d : DataCollectionService) (w : World) :
    (d.CollectAllData env w).2.2 =
      (OKXService.fetchEach env d.symbols d.okxService
        (BinanceService.fetchEach env d.binanceService d.symbols w).2).2.2 := by
  unfold DataCollectionService.CollectAllData
  simp only []
  rw [(okx_getMultiple_eq env d.okxService d.symbols _).2,
    (binance_getMultiple_eq env d.binanceService d.symbols w).2]

/-- C14, what the code does. The single-reading calls of both clients issue one
outbound request each and leave the request log as it was, whatever the upstream
answers; so one run of `CollectAllData` over k symbols issues 2k requests and adds no
entry to the log (the claim asks for 2k entries). -/
theorem single_reading_calls_log_nothing (env : Env) (b : BinanceService) (o : OKXService)
    (d : DataCollectionService) (symbol period : String) (limit : Int) (w : World) :
    ((b.GetLongShortRatioWithPeriod env symbol period limit w).2.logs = w.logs ∧
      (b.GetLongShortRatioWithPeriod env symbol period limit w).2.reqs = w.reqs + 1) ∧
    ((o.GetLongShortRatioWithPeriod env symbol period limit w).2.2.logs = w.logs ∧
      (o.GetLongShortRatioWithPeriod env symbol period limit w).2.2.reqs = w.reqs + 1) ∧
    ((b.GetLongShortRatio env symbol w).2.logs = w.logs ∧
      (o.GetLongShortRatio env symbol w).2.2.logs = w.logs) ∧
    ((d.CollectAllData env w).2.2.logs = w.logs ∧
      (d.CollectAllData env w).2.2.reqs = w.reqs + 2 * d.symbols.length) := by
  refine ⟨?_, ?_, ?_, ?_⟩
  · rw [binance_withPeriod_world]
    exact ⟨rfl, rfl⟩
  · rw [(okx_withPeriod_world env o symbol period limit w).1]
    simp only [throttle_logs, throttle_reqs]
    exact ⟨trivial, trivial⟩
  · constructor
    · show (b.GetLongShortRatioWithPeriod env symbol "5m" 1 w).2.logs = w.logs
      rw [binance_withPeriod_world]
    · show (o.GetLongShortRatioWithPeriod env symbol "5m" 1 w).2.2.logs = w.logs
      rw [(okx_withPeriod_world env o symbol "5m" 1 w).1]
      simp only [throttle_logs]
  · rw [collectAllData_world]
    obtain ⟨h1, h2⟩ := okx_fetchEach_log env d.symbols d.okxService
      (BinanceService.fetchEach env d.binanceService d.symbols w).2
    obtain ⟨h3, h4⟩ := binance_fetchEach_log env d.binanceService d.symbols w
    rw [h1, h2, h3, h4]
    exact ⟨rfl, by omega⟩

theorem throttle_dispatch_now (env : Env) (o : OKXService) (w : World) :
    (o.throttle env w).1.lastRequest = (o.throttle env w).2.now := by
  unfold OKXService.throttle
  rfl

theorem throttle_gap (env : Env) (o : OKXService) (w : World) (h : o.lastRequest ≤ w.now) :
    o.lastRequest + Second ≤ (o.throttle env w).1.lastRequest := by
  unfold OKXService.throttle
  simp only [timeSince, timeNow, timeSub, timeSleep, wrapInt64, Second, maxDuration,
    minDuration]
  have h0 := Int.ofNat_nonneg (env.lag w.ticks)
  have h1 := Int.ofNat_nonneg (env.lag (w.ticks + 1))
  have h2 := Int.ofNat_nonneg (env.lag (w.ticks + 1 + 1))
  have h3 := Int.ofNat_nonneg (env.lag (w.ticks + 1 + 1 + 1))
  split_ifs <;> simp only [] <;> omega

theorem throttle_no_sleep (env : Env) (o : OKXService) (w : World)
    (h : o.lastRequest + Second ≤ (timeNow env w).1) :
    o.throttle env w =
      ({ o with lastRequest := (timeNow env (timeNow env w).2).1 },
        (timeNow env (timeNow env w).2).2) := by
  unfold OKXService.throttle
  have hno : ¬ (timeSince env o.lastRequest w).1 < Second := by
    simp only [timeSince, timeSub, Second, maxDuration, minDuration] at h ⊢
    split_ifs <;> omega
  simp only [if_neg hno]
  rfl

theorem saveLog_now_ge (env : Env) (apiLog : APILog) (w : World) :
    w.now ≤ (saveLog env apiLog w).now := by
  unfold saveLog APILogRepository.Create
  have h0 := Int.ofNat_nonneg (env.lag w.ticks)
  cases env.GetDB with
  | false => exact le_refl _
  | true =>
    simp only [if_true, beginStmt, timeNow]
    cases env.fault w.stmts with
    | some msg => exact le_refl _
    | none =>
      simp only []
      split_ifs <;> simp only [] <;> omega

theorem issue_client (env : Env) (o : OKXService) (c : OKXCall) (w : World) :
    (o.issue env c w).1 = (o.throttle env (c.throttleStart env w)).1 := by
  cases c with
  | single symbol period limit =>
    exact (okx_withPeriod_world env o symbol period limit w).2
  | history symbol period limit =>
    unfold OKXService.issue OKXCall.throttleStart OKXService.GetLongShortRatioHistory
    simp only []
    split
    · rfl
    · split
      · rfl
      · split
        · rfl
        · rfl
        · split <;> rfl

theorem issue_now_ge (env : Env) (o : OKXService) (c : OKXCall) (w : World) :
    (o.issue env c w).1.lastRequest ≤ (o.issue env c w).2.now := by
  rw [issue_client, throttle_dispatch_now]
  cases c with
  | single symbol period limit =>
    unfold OKXService.issue
    rw [(okx_withPeriod_world env o symbol period limit w).1]
    exact le_refl _
  | history symbol period limit =>
    unfold OKXService.issue OKXCall.throttleStart OKXService.GetLongShortRatioHistory
    simp only []
    have hmono : ∀ (w1 : World) (t : Int), w1.now ≤
        (timeSince env t { w1 with reqs := w1.reqs + 1 }).2.now := by
      intro w1 t
      simp only [timeSince, timeNow]
      have := Int.ofNat_nonneg (env.lag w1.ticks)
      omega
    split
    · exact le_trans (hmono _ _) (saveLog_now_ge env _ _)
    · split
      · exact le_trans (hmono _ _) (saveLog_now_ge env _ _)
      · split
        · exact le_trans (hmono _ _) (saveLog_now_ge env _ _)
        · exact le_trans (hmono _ _) (saveLog_now_ge env _ _)
        · split <;> exact le_trans (hmono _ _) (saveLog_now_ge env _ _)

/-- C15. With the clock of the model (readings never decrease; `Sleep(d)` returns no
earlier than `d` after it is called, at once when `d <= 0`): when one OKX client issues
two requests in sequence, each through `GetLongShortRatioWithPeriod` or
`GetLongShortRatioHistory`, the dispatch time the second one records in `lastRequest`
is at least one second after the one the first recorded, whatever time passes in
between; and a request whose first clock reading is one second or more after the
recorded dispatch time of the previous one does not sleep: its dispatch time is the
very next clock reading. -/
theorem okx_throttle_one_second (env : Env) (o : OKXService) (c1 c2 : OKXCall)
    (w between : World)
    (hlater : (o.issue env c1 w).2.now ≤ between.now) :
    (o.issue env c1 w).1.lastRequest + Second ≤
      ((o.issue env c1 w).1.issue env c2 between).1.lastRequest ∧
    ((o.issue env c1 w).1.lastRequest + Second ≤
        (timeNow env (c2.throttleStart env between)).1 →
      ((o.issue env c1 w).1.issue env c2 between).1.lastRequest =
        (timeNow env (timeNow env (c2.throttleStart env between)).2).1) := by
  have hprev : (o.issue env c1 w).1.lastRequest ≤ (c2.throttleStart env between).now := by
    have h1 := issue_now_ge env o c1 w
    have h2 : between.now ≤ (c2.throttleStart env between).now := by
      cases c2 with
      | single _ _ _ => exact le_refl _
      | history _ _ _ =>
        simp only [OKXCall.throttleStart, timeNow]
        have := Int.ofNat_nonneg (env.lag between.ticks)
        omega
    omega
  constructor
  · rw [issue_client env _ c2 between]
    exact throttle_gap env _ _ hprev
  · intro hfar
    rw [issue_client env _ c2 between, throttle_no_sleep env _ _ hfar]

/-- Witness for C15: two history requests back to back, from a fresh client; the clock
advances one millisecond per event, so the second request sleeps and its dispatch time is
more than one second after the first. -/
theorem okx_throttle_one_second_witness :
    (NewOKXService.issue liveEnv (.history "BTCUSDT" "5m" 30) emptyWorld).1.lastRequest +
        Second ≤
      ((NewOKXService.issue liveEnv (.history "BTCUSDT" "5m" 30) emptyWorld).1.issue liveEnv
        (.history "BTCUSDT" "5m" 30)
        (NewOKXService.issue liveEnv (.history "BTCUSDT" "5m" 30)
          emptyWorld).2).1.lastRequest ∧
    ((NewOKXService.issue liveEnv (.history "BTCUSDT" "5m" 30) emptyWorld).1.issue liveEnv
        (.history "BTCUSDT" "5m" 30)
        (NewOKXService.issue liveEnv (.history "BTCUSDT" "5m" 30)
          emptyWorld).2).1.lastRequest = 1700000001005000000 :=
  ⟨(okx_throttle_one_second liveEnv NewOKXService (.history "BTCUSDT" "5m" 30)
      (.history "BTCUSDT" "5m" 30) emptyWorld
      (NewOKXService.issue liveEnv (.history "BTCUSDT" "5m" 30) emptyWorld).2
      (le_refl _)).1,
    by decide⟩

theorem binance_collectSymbols_none (env : Env) (b : BinanceService) (symbols : List String) :
    ∀ (results : Slice LongShortRatioData) (w : World),
      successes (BinanceService.fetchEach env b symbols w).1 = [] →
      (BinanceService.collectSymbols env b symbols results w).1 = results := by
  induction symbols with
  | nil => intro results w _; rfl
  | cons s rest ih =>
    intro results w h
    unfold BinanceService.collectSymbols
    unfold BinanceService.fetchEach at h
    rcases hr : b.GetLongShortRatio env s w with ⟨r, w1⟩
    cases r with
    | error e =>
      simp only [hr, successes, List.filterMap_cons] at h
      simp only []
      exact ih results w1 h
    | ok d =>
      simp [hr, successes] at h

theorem okx_collectSymbols_none (env : Env) (symbols : List String) :
    ∀ (o : OKXService) (results : Slice LongShortRatioData) (w : World),
      successes (OKXService.fetchEach env symbols o w).1 = [] →
      (OKXService.collectSymbols env symbols o results w).1 = results := by
  induction symbols with
  | nil => intro o results w _; rfl
  | cons s rest ih =>
    intro o results w h
    unfold OKXService.collectSymbols
    unfold OKXService.fetchEach at h
    rcases hr : o.GetLongShortRatio env s w with ⟨r, o1, w1⟩
    cases r with
    | error e =>
      simp only [hr, successes, List.filterMap_cons] at h
      simp only []
      exact ih o1 results w1 h
    | ok d =>
      simp [hr, successes] at h

/-- C16, as stated, fails. Counterexample: both upstreams refuse every connection, the
service is configured with the symbols BTCUSDT and ETHUSDT; no symbol yields a reading
from either client, and `CollectAllData` returns the nil slice. -/
theorem collectAllData_nil_when_all_fail :
    ¬ ∀ (env : Env) (d : DataCollectionService) (w : World),
        successes (BinanceService.fetchEach env d.binanceService d.symbols w).1 = [] →
        successes (OKXService.fetchEach env d.symbols d.okxService
          (BinanceService.fetchEach env d.binanceService d.symbols w).2).1 = [] →
        (d.CollectAllData env w).1.1.isNil = false := by
  intro h
  have h1 := h quietEnv (NewDataCollectionService ["BTCUSDT", "ETHUSDT"]) emptyWorld
    (by decide) (by decide)
  revert h1
  decide

/-- C16, amended. When both exchanges fail entirely (no symbol yields a reading from
either client), `CollectAllData` returns, without error, a collection of length 0,
and this collection is the nil slice, not an allocated empty one. -/
theorem collectAllData_empty_is_nil (env : Env) (d : DataCollectionService) (w : World)
    (hb : successes (BinanceService.fetchEach env d.binanceService d.symbols w).1 = [])
    (ho : successes (OKXService.fetchEach env d.symbols d.okxService
      (BinanceService.fetchEach env d.binanceService d.symbols w).2).1 = []) :
    (d.CollectAllData env w).1.2 = none ∧
    (d.CollectAllData env w).1.1.len = 0 ∧
    (d.CollectAllData env w).1.1 = Slice.nil ∧
    (d.CollectAllData env w).1.1.isNil = true := by
  have hnil : (d.CollectAllData env w).1.1 = Slice.nil := by
    have h1 : (d.binanceService.GetMultipleSymbolsLongShortRatio env d.symbols w).1.1 =
        Slice.nil := by
      unfold BinanceService.GetMultipleSymbolsLongShortRatio
      exact binance_collectSymbols_none env d.binanceService d.symbols .nil w hb
    have h2 : (d.okxService.GetMultipleSymbolsLongShortRatio env d.symbols
        (d.binanceService.GetMultipleSymbolsLongShortRatio env d.symbols w).2).1.1 =
        Slice.nil := by
      unfold OKXService.GetMultipleSymbolsLongShortRatio
      apply okx_collectSymbols_none env d.symbols d.okxService .nil
      rw [(binance_getMultiple_eq env d.binanceService d.symbols w).2]
      exact ho
    unfold DataCollectionService.CollectAllData
    simp only [h1, h2]
    rfl
  refine ⟨rfl, ?_, hnil, ?_⟩
  · rw [hnil]; rfl
  · rw [hnil]; rfl

/-- Witness for the amended C16: both upstreams refuse every connection. -/
theorem collectAllData_empty_is_nil_witness :
    ((NewDataCollectionService ["BTCUSDT", "ETHUSDT"]).CollectAllData quietEnv
      emptyWorld).1 = (Slice.nil, none) :=
  Prod.ext
    (collectAllData_empty_is_nil quietEnv (NewDataCollectionService ["BTCUSDT", "ETHUSDT"])
      emptyWorld (by decide) (by decide)).2.2.1
    (collectAllData_empty_is_nil quietEnv (NewDataCollectionService ["BTCUSDT", "ETHUSDT"])
      emptyWorld (by decide) (by decide)).1

/-- C17, as stated, fails. Counterexample: the request
`GET /current?exchange=binance&symbol=BTCUSDT` while the storage engine fails the query
with "database is locked": `GetLatest` fails with an error other than NotFound and the
handler answers with status 404, not 500. -/
theorem getCurrentRatios_other_error_not_500 :
    ¬ ∀ (env : Env) (h : LongShortRatioHandler) (exchange symbol : String) (w : World)
        (msg : String), exchange ≠ "" → symbol ≠ "" →
        (GetLatest env exchange symbol w).1 = .error (.other msg) →
        (h.GetCurrentRatios env exchange symbol w).1.status = 500 := by
  intro hall
  have h1 := hall lockedEnv NewLongShortRatioHandler "binance" "BTCUSDT" emptyWorld
    "database is locked" (by decide) (by decide) (by decide)
  revert h1
  decide

/-- C17, amended. For every request to `GET /current` that names both an exchange and
a symbol, `GetCurrentRatios` answers with status 404 exactly when `GetLatest` fails,
with NotFound or with any other storage error alike, and with status 200 and the
reading when it succeeds; in the failure case the answer is the failure envelope with
the fixed message "未找到数据", the same for every error, so it carries nothing of the
internal error text. -/
theorem getCurrentRatios_status (env : Env) (h : LongShortRatioHandler)
    (exchange symbol : String) (w : World) (hex : exchange ≠ "") (hsy : symbol ≠ "") :
    (∀ e, (GetLatest env exchange symbol w).1 = .error e →
      (h.GetCurrentRatios env exchange symbol w).1 =
        { status := 404, success := false, message := some "未找到数据", data := none }) ∧
    (∀ ratio, (GetLatest env exchange symbol w).1 = .ok ratio →
      (h.GetCurrentRatios env exchange symbol w).1 =
        { status := 200, success := true, message := none,
          data := some (.one ⟨ratio.Exchange, ratio.Symbol, ratio.Ratio,
            ratio.Timestamp⟩) }) ∧
    ((h.GetCurrentRatios env exchange symbol w).1.status = 404 ↔
      ∃ e, (GetLatest env exchange symbol w).1 = .error e) ∧
    ((h.GetCurrentRatios env exchange symbol w).1.status = 200 ↔
      ∃ ratio, (GetLatest env exchange symbol w).1 = .ok ratio) ∧
    (h.GetCurrentRatios env exchange symbol w).2 = (GetLatest env exchange symbol w).2 := by
  have hcond : ¬ (exchange = "" ∨ symbol = "") := by
    rintro (h1 | h1)
    · exact hex h1
    · exact hsy h1
  unfold LongShortRatioHandler.GetCurrentRatios
  rw [if_neg hcond]
  rcases hr : GetLatest env exchange symbol w with ⟨r, w1⟩
  cases r with
  | error e => simp
  | ok ratio => simp [readingJSON]

/-- Witness for the amended C17: a lookup that finds the stored row, one that finds
none, and one the storage engine fails. -/
theorem getCurrentRatios_status_witness :
    (NewLongShortRatioHandler.GetCurrentRatios quietEnv "okx" "BTCUSDT" threeRowWorld).1 =
      { status := 200, success := true, message := none,
        data := some (.one ⟨"okx", "BTCUSDT", ⟨0x3FF199999999999A⟩,
          ⟨1700000300000000000, .UTC⟩⟩) } ∧
    (NewLongShortRatioHandler.GetCurrentRatios quietEnv "okx" "ETHUSDT" threeRowWorld).1 =
      { status := 404, success := false, message := some "未找到数据", data := none } ∧
    (NewLongShortRatioHandler.GetCurrentRatios lockedEnv "okx" "BTCUSDT" threeRowWorld).1 =
      { status := 404, success := false, message := some "未找到数据", data := none } :=
  ⟨(getCurrentRatios_status quietEnv NewLongShortRatioHandler "okx" "BTCUSDT" threeRowWorld
      (by decide) (by decide)).2.1
      ⟨3, ⟨1700000607000000000, .UTC⟩, ⟨1700000607000000000, .UTC⟩, "okx", "BTCUSDT",
        ⟨0x3FF199999999999A⟩, ⟨1700000300000000000, .UTC⟩⟩ (by decide),
    (getCurrentRatios_status quietEnv NewLongShortRatioHandler "okx" "ETHUSDT" threeRowWorld
      (by decide) (by decide)).1 .ErrRecordNotFound (by decide),
    (getCurrentRatios_status lockedEnv NewLongShortRatioHandler "okx" "BTCUSDT" threeRowWorld
      (by decide) (by decide)).1 (.other "database is locked") (by decide)⟩

theorem upsertEach_length (env : Env) (data : List LongShortRatioData) :
    ∀ w, (upsertEach env data w).1.length = data.length := by
  induction data with
  | nil => intro w; rfl
  | cons item rest ih => intro w; simp [upsertEach, ih]

theorem ratioOfReading_eq (item : LongShortRatioData) :
    ratioOfReading item = rowOfReading item := rfl

theorem handler_saveLoop_eq (env : Env) (data : List LongShortRatioData) :
    ∀ (savedCount : Int) (w : World),
      LongShortRatioHandler.saveLoop env data savedCount w =
        (savedCount + countSaved (upsertEach env data w).1, (upsertEach env data w).2) := by
  induction data with
  | nil => intro savedCount w; simp [LongShortRatioHandler.saveLoop, upsertEach, countSaved]
  | cons item rest ih =>
    intro savedCount w
    unfold LongShortRatioHandler.saveLoop upsertEach
    rw [ratioOfReading_eq]
    rcases hr : CreateOrUpdate env (rowOfReading item) w with ⟨r, w1⟩
    cases r with
    | some err =>
      simp only []
      rw [ih]
      simp [countSaved]
    | none =>
      simp only []
      rw [ih]
      simp only [countSaved, List.countP_cons, Option.isNone_none, if_true, Prod.mk.injEq,
        and_true]
      push_cast
      ring

theorem scheduler_saveLoop_eq (env : Env) (data : List LongShortRatioData) :
    ∀ (savedCount : Int) (errors : Slice (String × String × DBError)) (w : World),
      (DataScheduler.saveLoop env data savedCount errors w).1 =
        savedCount + countSaved (upsertEach env data w).1 ∧
      (DataScheduler.saveLoop env data savedCount errors w).2.1.toList.length =
        errors.toList.length +
          ((upsertEach env data w).1.length - countSaved (upsertEach env data w).1) ∧
      (DataScheduler.saveLoop env data savedCount errors w).2.2 =
        (upsertEach env data w).2 := by
  induction data with
  | nil =>
    intro savedCount errors w
    simp [DataScheduler.saveLoop, upsertEach, countSaved]
  | cons item rest ih =>
    intro savedCount errors w
    unfold DataScheduler.saveLoop upsertEach
    rw [ratioOfReading_eq]
    rcases hr : CreateOrUpdate env (rowOfReading item) w with ⟨r, w1⟩
    have hle : countSaved (upsertEach env rest w1).1 ≤ (upsertEach env rest w1).1.length :=
      List.countP_le_length _
    cases r with
    | some err =>
      simp only []
      obtain ⟨h1, h2, h3⟩ := ih savedCount (errors.append (item.Exchange, item.Symbol, err)) w1
      rw [h1, h2, h3]
      simp only [countSaved, List.countP_cons, Option.isNone_some, List.length_cons,
        Slice.toList_append, List.length_append, List.length_singleton] at hle ⊢
      refine ⟨by simp, by simp; omega, trivial⟩
    | none =>
      simp only []
      obtain ⟨h1, h2, h3⟩ := ih (savedCount + 1) errors w1
      rw [h1, h2, h3]
      simp only [countSaved, List.countP_cons, Option.isNone_none, List.length_cons] at hle ⊢
      refine ⟨by simp; ring, by simp, trivial⟩

/-- C18. For every environment, in particular every list of readings the collection
service returns and every pattern of storage failures: the collection job
`collectData` and the handler `RefreshData` leave the world that results from calling
`CreateOrUpdate` once for each returned reading, in order, failed upserts included,
each time with the new row that bears the exchange, the symbol, the ratio and the
observed-at of that reading; the saved count they report is the number of those
upserts that succeeded and the collected count the number of readings, so
saved <= collected, with equality exactly when no upsert failed. (`collectData` reports
no counts when no reading was collected.) An upsert of a reading that succeeds leaves
in the store a row with the exchange, the symbol, the observed-at and the ratio of the
reading, as the engine holds them. -/
theorem collection_job_upserts_each (env : Env) (s : DataScheduler)
    (h : LongShortRatioHandler) (w : World) :
    ((h.RefreshData env w).1 =
        { status := 200, success := true, message := some "数据刷新完成",
          data := some
            { collected := (h.dataCollectionSvc.CollectAllData env w).1.1.toList.length
              saved := countSaved (upsertEach env
                (h.dataCollectionSvc.CollectAllData env w).1.1.toList
                (h.dataCollectionSvc.CollectAllData env w).2.2).1 } } ∧
      (h.RefreshData env w).2.2 =
        (upsertEach env (h.dataCollectionSvc.CollectAllData env w).1.1.toList
          (h.dataCollectionSvc.CollectAllData env w).2.2).2) ∧
    ((s.collectData env w).1 =
        (if (s.dataCollectionSvc.CollectAllData env w).1.1.toList = [] then
          CollectReport.nothing
        else
          CollectReport.summary
            (s.dataCollectionSvc.CollectAllData env w).1.1.toList.length
            (countSaved (upsertEach env
              (s.dataCollectionSvc.CollectAllData env w).1.1.toList
              (s.dataCollectionSvc.CollectAllData env w).2.2).1)
            ((upsertEach env
              (s.dataCollectionSvc.CollectAllData env w).1.1.toList
              (s.dataCollectionSvc.CollectAllData env w).2.2).1.length -
             countSaved (upsertEach env
              (s.dataCollectionSvc.CollectAllData env w).1.1.toList
              (s.dataCollectionSvc.CollectAllData env w).2.2).1 : Nat)) ∧
      (s.collectData env w).2.2 =
        (upsertEach env (s.dataCollectionSvc.CollectAllData env w).1.1.toList
          (s.dataCollectionSvc.CollectAllData env w).2.2).2) ∧
    (∀ (data : List LongShortRatioData) (w0 : World),
      (upsertEach env data w0).1.length = data.length ∧
      countSaved (upsertEach env data w0).1 ≤ data.length ∧
      (countSaved (upsertEach env data w0).1 = data.length ↔
        ∀ r ∈ (upsertEach env data w0).1, r = none)) ∧
    (∀ item : LongShortRatioData,
      ratioOfReading item =
        ⟨0, Time.zero, Time.zero, item.Exchange, item.Symbol, item.Ratio, item.Timestamp⟩) ∧
    (∀ (item : LongShortRatioData) (rest : List LongShortRatioData) (w0 : World),
      upsertEach env (item :: rest) w0 =
        ((CreateOrUpdate env
            ⟨0, Time.zero, Time.zero, item.Exchange, item.Symbol, item.Ratio,
              item.Timestamp⟩ w0).1 ::
          (upsertEach env rest (CreateOrUpdate env
            ⟨0, Time.zero, Time.zero, item.Exchange, item.Symbol, item.Ratio,
              item.Timestamp⟩ w0).2).1,
         (upsertEach env rest (CreateOrUpdate env
            ⟨0, Time.zero, Time.zero, item.Exchange, item.Symbol, item.Ratio,
              item.Timestamp⟩ w0).2).2)) ∧
    (∀ (item : LongShortRatioData) (w0 w1 : World),
      CreateOrUpdate env
          ⟨0, Time.zero, Time.zero, item.Exchange, item.Symbol, item.Ratio,
            item.Timestamp⟩ w0 = (none, w1) →
        ∃ row ∈ w1.ratios.rows, row.exchange = item.Exchange ∧
          row.symbol = item.Symbol ∧ row.timestamp = env.formatTime item.Timestamp ∧
          row.ratio = storedReal item.Ratio) := by
  refine ⟨?_, ?_, ?_, fun _ => rfl, fun _ _ _ => rfl, fun item w0 w1 hok =>
    createOrUpdate_ok_row env _ w0 w1 hok⟩
  · unfold LongShortRatioHandler.RefreshData
    have herr : (h.dataCollectionSvc.CollectAllData env w).1.2 = none := rfl
    simp only [herr, handler_saveLoop_eq, Slice.len]
    simp
  · unfold DataScheduler.collectData
    have herr : (s.dataCollectionSvc.CollectAllData env w).1.2 = none := rfl
    simp only [herr]
    by_cases hnil : (s.dataCollectionSvc.CollectAllData env w).1.1.toList = []
    · have hlen : (s.dataCollectionSvc.CollectAllData env w).1.1.len = 0 := by
        simp [Slice.len, hnil]
      rw [if_pos hlen, if_pos hnil]
      simp [upsertEach, hnil]
    · have hlen : ¬ (s.dataCollectionSvc.CollectAllData env w).1.1.len = 0 := by
        simp [Slice.len, hnil]
      rw [if_neg hlen, if_neg hnil]
      obtain ⟨h1, h2, h3⟩ := scheduler_saveLoop_eq env
        (s.dataCollectionSvc.CollectAllData env w).1.1.toList 0 .nil
        (s.dataCollectionSvc.CollectAllData env w).2.2
      simp only [h1, h3, Slice.len, h2]
      simp [Slice.toList]
  · intro data w0
    have hlen := upsertEach_length env data w0
    refine ⟨hlen, ?_, ?_⟩
    · rw [← hlen]
      exact List.countP_le_length _
    · rw [← hlen, countSaved, List.countP_eq_length]
      constructor
      · intro hall r hr
        have := hall r hr
        cases r with
        | none => rfl
        | some e => simp at this
      · intro hall r hr
        rw [hall r hr]
        rfl

end CurrencyMonitor
